import Mathlib

/-!
# rbln-npu-feature-discovery: the feature collection subsystem

A shallow embedding of `internal/collector` (`collector.go`, `device.go`) and
`internal/sysfs` (`sysfs.go`), followed by theorems about it.

Go strings are modelled as lists of Unicode code points (`Str`), which covers
every string that is valid UTF-8.  All characters the code searches for
(`-`, `+`, `~`, `.`, `/`) are ASCII, so slicing at a character index of the model
is slicing at the byte index of that character in Go.
-/

namespace Rbln

/-- A Go string, as the list of its code points. -/
abbrev Str := List Char

/-! ## The parts of the Go standard library the code calls -/

/-- Go `unicode.IsSpace`: the Latin-1 spaces, and above Latin-1 the `White_Space` table. -/
def isSpace (c : Char) : Bool :=
  let n := c.toNat
  if n ≤ 0xFF then
    n == 0x09 || n == 0x0A || n == 0x0B || n == 0x0C || n == 0x0D || n == 0x20 ||
      n == 0x85 || n == 0xA0
  else
    n == 0x1680 || (0x2000 ≤ n && n ≤ 0x200A) || n == 0x2028 || n == 0x2029 ||
      n == 0x202F || n == 0x205F || n == 0x3000

/-- Go `strings.TrimSpace`: leading, then trailing, white space removed. -/
def TrimSpace (s : Str) : Str :=
  ((s.dropWhile isSpace).reverse.dropWhile isSpace).reverse

/-- Go `strings.IndexAny`: the index of the first character of `s` that occurs in `chars`;
`none` stands for Go's `-1`. -/
def IndexAny : Str → Str → Option Nat
  | [], _ => none
  | c :: cs, chars => if c ∈ chars then some 0 else (IndexAny cs chars).map (· + 1)

/-- Go `strings.Split` for a one-character separator: the pieces of `s` between the
occurrences of `sep`; a string without `sep` (also the empty one) gives one piece. -/
def Split (s : Str) (sep : Char) : List Str :=
  match s with
  | [] => [[]]
  | c :: cs =>
    if c = sep then [] :: Split cs sep
    else (c :: (Split cs sep).headD []) :: (Split cs sep).tail

/-- Go `strings.HasPrefix`. -/
def HasPrefix (s pre : Str) : Bool := pre.isPrefixOf s

/-- Go `strings.TrimPrefix`. -/
def TrimPrefix (s pre : Str) : Str :=
  if HasPrefix s pre then s.drop pre.length else s

/-! ## collector.go: `parseDriverVersion` -/

/-- The errors the code under study creates or passes on. -/
inductive Err where
  /-- An error of a collaborator (daemon transport, file system), opaque to the code. -/
  | external (what : Str)
  /-- The text of `fmt.Errorf("unknown device id: %s", id)`. -/
  | unknownDeviceID (id : Str)
  /-- The text of `fmt.Errorf("unknown product name: %s", name)`. -/
  | unknownProductName (name : Str)
  /-- The text of `fmt.Errorf("failed to split semver with dots: %s", semver)`. -/
  | splitSemver (semver : Str)
  /-- The text of `fmt.Errorf("invalid output file path: %s", path)`. -/
  | invalidOutputPath (path : Str)
  /-- An error wrapped with `fmt.Errorf(ctx + ": %w", err)`. -/
  | wrap (ctx : Str) (err : Err)
  deriving DecidableEq, Repr

/-- The six named results of `parseDriverVersion`.  Go returns all of them on every path:
on the error path `semver` and `revision` are already assigned, the rest are empty. -/
structure ParsedVersion where
  semver : Str
  revision : Option Str
  major : Str
  minor : Str
  patch : Str
  err : Option Err
  deriving DecidableEq, Repr

/-- The separators that start the revision, the `"-+~"` of the source. -/
def revisionSeparators : Str := ['-', '+', '~']

/-- The `parseDriverVersion` of collector.go. -/
def parseDriverVersion (raw : Str) : ParsedVersion :=
  let trimmed := TrimSpace raw
  let idx := IndexAny trimmed revisionSeparators
  let semver : Str :=
    match idx with
    | some i => trimmed.take i
    | none => trimmed
  let revision : Option Str :=
    match idx with
    | some i => some (trimmed.drop (i + 1))
    | none => none
  let parts := Split semver '.'
  if parts.length < 3 then
    { semver := semver, revision := revision, major := [], minor := [], patch := [],
      err := some (Err.splitSemver semver) }
  else
    { semver := semver, revision := revision,
      major := parts.getD 0 [], minor := parts.getD 1 [], patch := parts.getD 2 [],
      err := none }

/-! ## device.go -/

/-- The `DeviceProduct` of device.go, a string type. -/
abbrev DeviceProduct := Str

def DeviceFamilyATOM : Str := "ATOM".toList

def DeviceFamilyREBEL : Str := "REBEL".toList

/-- The `deviceProductMap` of device.go; the keys are pairwise different, as in a Go map. -/
def deviceProductMap : List (Str × DeviceProduct) :=
  [ ("1020".toList, "CA02".toList),
    ("1021".toList, "CA02".toList),
    ("1120".toList, "CA12".toList),
    ("1121".toList, "CA02".toList),
    ("1150".toList, "CA15".toList),
    ("1220".toList, "CA22".toList),
    ("1221".toList, "CA22".toList),
    ("1250".toList, "CA25".toList) ]

/-- The `productFromDeviceID` of device.go. -/
def productFromDeviceID (id : Str) : Except Err DeviceProduct :=
  match deviceProductMap.lookup id with
  | some p => .ok p
  | none => .error (Err.unknownDeviceID id)

/-- The `DeviceProduct.FeatureString` of device.go: `fmt.Sprintf("RBLN-%s", p)`. -/
def DeviceProduct.FeatureString (p : DeviceProduct) : Str := "RBLN-".toList ++ p

/-- The `DeviceProduct.Family` of device.go. -/
def DeviceProduct.Family (p : DeviceProduct) : Except Err Str :=
  if HasPrefix p "CA".toList then .ok DeviceFamilyATOM
  else if HasPrefix p "CR".toList then .ok DeviceFamilyREBEL
  else .error (Err.unknownProductName p)

/-! ## collector.go: `Features` and its serialisation -/

def labelPrefix : Str := "rebellions.ai".toList

/-- The `Features` of collector.go; a nil pointer is `none`. -/
structure Features where
  NPUPresent : Bool
  NPUCount : Option Int
  NPUFamily : Option Str
  NPUProduct : Option Str
  DriverVersionFull : Option Str
  DriverVersionMajor : Option Str
  DriverVersionMinor : Option Str
  DriverVersionPatch : Option Str
  DriverVersionRevision : Option Str
  deriving DecidableEq, Repr

/-- The `newFeatures` of collector.go: every pointer field is nil. -/
def newFeatures : Features :=
  { NPUPresent := false, NPUCount := none, NPUFamily := none, NPUProduct := none,
    DriverVersionFull := none, DriverVersionMajor := none, DriverVersionMinor := none,
    DriverVersionPatch := none, DriverVersionRevision := none }

/-- Go's `%t` verb. -/
def formatBool (b : Bool) : Str := if b then "true".toList else "false".toList

/-- Go's `%d` verb for an `int`. -/
def formatInt : Int → Str
  | Int.ofNat m => Nat.toDigits 10 m
  | Int.negSucc m => '-' :: Nat.toDigits 10 (m + 1)

/-- The `Features.toPlainText` of collector.go; `b` is the `strings.Builder`. -/
def Features.toPlainText (f : Features) : Str :=
  let b : Str := labelPrefix ++ "/npu.present=".toList ++ formatBool f.NPUPresent ++ ['\n']
  let b := match f.NPUCount with
    | some v => b ++ (labelPrefix ++ "/npu.count=".toList ++ formatInt v ++ ['\n'])
    | none => b
  let b := match f.NPUFamily with
    | some v => b ++ (labelPrefix ++ "/npu.family=".toList ++ v ++ ['\n'])
    | none => b
  let b := match f.NPUProduct with
    | some v => b ++ (labelPrefix ++ "/npu.product=".toList ++ v ++ ['\n'])
    | none => b
  let b := match f.DriverVersionFull with
    | some v => b ++ (labelPrefix ++ "/driver-version.full=".toList ++ v ++ ['\n'])
    | none => b
  let b := match f.DriverVersionMajor with
    | some v => b ++ (labelPrefix ++ "/driver-version.major=".toList ++ v ++ ['\n'])
    | none => b
  let b := match f.DriverVersionMinor with
    | some v => b ++ (labelPrefix ++ "/driver-version.minor=".toList ++ v ++ ['\n'])
    | none => b
  let b := match f.DriverVersionPatch with
    | some v => b ++ (labelPrefix ++ "/driver-version.patch=".toList ++ v ++ ['\n'])
    | none => b
  let b := match f.DriverVersionRevision with
    | some v => b ++ (labelPrefix ++ "/driver-version.revision=".toList ++ v ++ ['\n'])
    | none => b
  b

/-! ## The environment of one collection cycle

The daemon, the kernel's attribute files, the clock and the outcome of the file-system
calls of `save` are inputs of a run (`World`); the label files are state (`Files`); every
call that leaves the process is recorded in order (`Event`). -/

/-- What a run does to the outside, in the order it does it. -/
inductive Event where
  /-- The `daemon.NewClient` of client.go. -/
  | dial
  /-- The deferred `client.Close`. -/
  | close
  /-- The `client.ServiceableDevices` of client.go. -/
  | serviceableDevices
  /-- The `client.Version` of client.go for the device with this identifier. -/
  | version (devId : Str)
  /-- The `os.ReadDir(pciDevicesPath)` of sysfs.go. -/
  | readPciDir
  /-- The `os.ReadFile` of attribute `attr` of PCI entry `entry`. -/
  | readPciAttr (entry attr : Str)
  /-- The `os.Stat(kernelVersionFile)` of sysfs.go. -/
  | statKernelVersion
  /-- The `os.ReadFile(kernelVersionFile)` of sysfs.go. -/
  | readKernelVersion
  /-- The `os.Stat(dir)` of `save`. -/
  | statDir (dir : Str)
  /-- The `os.WriteFile(path, data, 0o644)` of `save`. -/
  | writeFile (path data : Str)
  /-- The `os.Rename(oldpath, newpath)` of `save`. -/
  | rename (oldpath newpath : Str)
  deriving DecidableEq, Repr

/-- The events of the sysfs path. -/
def Event.isSysfs : Event → Bool
  | .readPciDir => true
  | .readPciAttr _ _ => true
  | .statKernelVersion => true
  | .readKernelVersion => true
  | _ => false

/-- The events of the publish step. -/
def Event.isPublish : Event → Bool
  | .statDir _ => true
  | .writeFile _ _ => true
  | .rename _ _ => true
  | _ => false

/-- One entry of the PCI device directory: its name and what reading each of its three
attribute files gives. -/
structure PciEntry where
  name : Str
  vendor : Except Err Str
  sriov_numvfs : Except Err Str
  device : Except Err Str

/-- The outcome of `os.Stat`. -/
inductive StatResult where
  | found
  /-- An error for which `errors.Is(err, fs.ErrNotExist)` holds. -/
  | notExist
  | failed (err : Err)

/-- The outcome of `os.WriteFile`; on failure `left` is what the call left in the file
(`none`: the file was not touched). -/
inductive WriteResult where
  | done
  | failed (err : Err) (left : Option Str)

/-- Everything a run reads from outside. -/
structure World where
  /-- The error of `daemon.NewClient`, if any. -/
  dial : Option Err
  /-- The result of `client.ServiceableDevices`: the `GetDevId()` of each device. -/
  serviceableDevices : Except Err (List Str)
  /-- The result of `client.Version` for the first device: its `GetDrvVersion()`. -/
  version : Except Err Str
  /-- The result of `os.ReadDir(pciDevicesPath)`, in listing order. -/
  pciDevices : Except Err (List PciEntry)
  /-- The result of `os.Stat` on the kernel-version file. -/
  kernelVersionStat : StatResult
  /-- The result of `os.ReadFile` on the kernel-version file. -/
  kernelVersionRead : Except Err Str
  /-- The text of `time.Now().Add(time.Hour).Format(time.RFC3339)`. -/
  expiry : Str
  /-- The error of `os.Stat(dir)` in `save`, if any. -/
  statDir : Option Err
  /-- The outcome of `os.WriteFile` in `save`. -/
  writeTemp : WriteResult
  /-- The error of `os.Rename` in `save`, if any. -/
  renameTemp : Option Err

/-- The regular files.  A path names at most one file (`node`); two paths with the same
file number are links to one file, and a write through either shows at both.  `data` is
the content of each file; the files in use have numbers below `next`, the number of the
next new file (`wf`). -/
structure Files where
  node : Str → Option Nat
  data : Nat → Str
  next : Nat
  wf : ∀ p i, node p = some i → i < next

/-- The content at a path, `none` where there is no file. -/
def Files.read (fs : Files) (path : Str) : Option Str := (fs.node path).map fs.data

instance : CoeFun Files (fun _ => Str → Option Str) := ⟨Files.read⟩

/-- The file that `path` names holds `data` afterwards; where `path` names no file, a new
one is made. -/
def Files.write (fs : Files) (path data : Str) : Files :=
  match fs.node path with
  | some i => { fs with data := fun j => if j = i then data else fs.data j }
  | none =>
    { node := fun q => if q = path then some fs.next else fs.node q
      data := fun j => if j = fs.next then data else fs.data j
      next := fs.next + 1
      wf := by
        intro p i h
        by_cases hp : p = path
        · simp only [hp, if_true, Option.some.injEq] at h
          omega
        · simp only [hp, if_false] at h
          exact Nat.lt_succ_of_lt (fs.wf p i h) }

/-- The states the files pass through while `os.WriteFile(path, ...)` writes `written`
(the whole text, or what a failed call leaves): the file is truncated, then it grows. -/
def Files.writeStates (fs : Files) (path written : Str) : List Files :=
  (List.inits written).map (fs.write path)

/-- A successful `os.Rename`: `newpath` names the file `oldpath` named, and `oldpath` is
gone; where both name the same file already, nothing changes. -/
def Files.rename (fs : Files) (oldpath newpath : Str) : Files :=
  if fs.node oldpath = none ∨ fs.node newpath = fs.node oldpath then fs
  else
    { node := fun q =>
        if q = newpath then fs.node oldpath else if q = oldpath then none else fs.node q
      data := fs.data
      next := fs.next
      wf := by
        intro p i h
        by_cases hp : p = newpath
        · simp only [hp, if_true] at h
          exact fs.wf oldpath i h
        · by_cases ho : p = oldpath
          · subst ho
            simp only [hp, if_false, if_true] at h
            cases h
          · simp only [hp, ho, if_false] at h
            exact fs.wf p i h }

/-! ## sysfs.go -/

def rblnVendorID : Str := "0x1eff".toList

/-- The `Device` of sysfs.go. -/
structure Device where
  DeviceID : Str
  deriving DecidableEq, Repr

/-- Go `strconv.Atoi` on a 64-bit platform: an optional sign and decimal digits, within
the range of `int`; `none` stands for a non-nil error. -/
def Atoi (s : Str) : Option Int :=
  let (neg, digits) : Bool × Str :=
    match s with
    | '-' :: r => (true, r)
    | '+' :: r => (false, r)
    | _ => (false, s)
  if digits = [] ∨ ¬ digits.all Char.isDigit then none
  else
    let un : Nat := digits.foldl (fun n ch => n * 10 + (ch.toNat - '0'.toNat)) 0
    if neg then (if un > 2 ^ 63 then none else some (-(un : Int)))
    else (if un ≥ 2 ^ 63 then none else some (un : Int))

/-- The loop of `DiscoverDevices` over the remaining `entries`, with the `devices`
collected so far.  Returns the result and the events of the loop. -/
def discoverLoop : List PciEntry → List Device → Except Err (List Device) × List Event
  | [], devices => (.ok devices, [])
  | entry :: rest, devices =>
    match entry.vendor with
    | .error e =>
      (.error (Err.wrap "failed to read vendor".toList e),
        [Event.readPciAttr entry.name "vendor".toList])
    | .ok vendorBytes =>
      if TrimSpace vendorBytes ≠ rblnVendorID then
        let r := discoverLoop rest devices
        (r.1, Event.readPciAttr entry.name "vendor".toList :: r.2)
      else
        let skip : Bool :=
          match entry.sriov_numvfs with
          | .ok data =>
            (match Atoi (TrimSpace data) with
             | some numvfs => numvfs ≠ 0
             | none => false)
          | .error _ => false
        if skip then
          let r := discoverLoop rest devices
          (r.1, Event.readPciAttr entry.name "vendor".toList ::
            Event.readPciAttr entry.name "sriov_numvfs".toList :: r.2)
        else
          match entry.device with
          | .error e =>
            (.error (Err.wrap "failed to read device id".toList e),
              [Event.readPciAttr entry.name "vendor".toList,
               Event.readPciAttr entry.name "sriov_numvfs".toList,
               Event.readPciAttr entry.name "device".toList])
          | .ok deviceIDBytes =>
            let deviceID := TrimPrefix (TrimSpace deviceIDBytes) "0x".toList
            let r := discoverLoop rest (devices ++ [{ DeviceID := deviceID }])
            (r.1, Event.readPciAttr entry.name "vendor".toList ::
              Event.readPciAttr entry.name "sriov_numvfs".toList ::
              Event.readPciAttr entry.name "device".toList :: r.2)

/-- The `DiscoverDevices` of sysfs.go: its result and its events. -/
def DiscoverDevices (w : World) : Except Err (List Device) × List Event :=
  match w.pciDevices with
  | .error e => (.error e, [Event.readPciDir])
  | .ok entries =>
    let r := discoverLoop entries []
    (r.1, Event.readPciDir :: r.2)

/-- The three results of `ReadDriverVersion`. -/
structure DriverVersionRead where
  version : Str
  found : Bool
  err : Option Err

/-- The `ReadDriverVersion` of sysfs.go: its results and its events. -/
def ReadDriverVersion (w : World) : DriverVersionRead × List Event :=
  match w.kernelVersionStat with
  | .notExist => ({ version := [], found := false, err := none }, [Event.statKernelVersion])
  | .failed e => ({ version := [], found := false, err := some e }, [Event.statKernelVersion])
  | .found =>
    match w.kernelVersionRead with
    | .error e =>
      ({ version := [], found := false, err := some e },
        [Event.statKernelVersion, Event.readKernelVersion])
    | .ok versionBytes =>
      ({ version := TrimSpace versionBytes, found := true, err := none },
        [Event.statKernelVersion, Event.readKernelVersion])

/-! ## Go `path/filepath` on Unix, as far as `save` uses it -/

/-- One path element of the loop of `filepath.Clean`; `out` holds the elements kept so
far, the last one first. -/
def cleanStep (rooted : Bool) (out : List Str) (elem : Str) : List Str :=
  if elem = [] ∨ elem = ['.'] then out
  else if elem = ['.', '.'] then
    match out with
    | top :: rest => if top = ['.', '.'] then elem :: out else rest
    | [] => if rooted then [] else [elem]
  else elem :: out

/-- Go `filepath.Clean`: the shortest path naming the same file by purely lexical
processing; never empty. -/
def Clean (path : Str) : Str :=
  let rooted : Bool := path.head? = some '/'
  let out := ((Split path '/').foldl (cleanStep rooted) []).reverse
  let s : Str := (if rooted then ['/'] else []) ++ List.intercalate ['/'] out
  if s = [] then ['.'] else s

/-- Go `filepath.Dir`: `Clean` of the path through its last separator. -/
def Dir (path : Str) : Str :=
  Clean ((path.reverse.dropWhile (· ≠ '/')).reverse)

/-- Go `filepath.Base`: the last element of the path, trailing separators removed first. -/
def Base (path : Str) : Str :=
  if path = [] then ['.']
  else
    let stripped := path.reverse.dropWhile (· = '/')
    let last := (stripped.takeWhile (· ≠ '/')).reverse
    if last = [] then ['/'] else last

/-- Go `filepath.Join`: the elements from the first non-empty one on, separated by `/`,
then `Clean`; empty when all elements are. -/
def Join (elem : List Str) : Str :=
  match elem.dropWhile (· = []) with
  | [] => []
  | es => Clean (List.intercalate ['/'] es)

/-! ## collector.go: the collector -/

/-- The `FeaturesCollector` of collector.go. -/
structure FeaturesCollector where
  daemonURL : Str
  outputFile : Str
  noTimestamp : Bool

/-- The assignments of lines 141-147 and 185-191: the parsed version stored in the record. -/
def Features.setDriverVersion (features : Features) (v : ParsedVersion) : Features :=
  let features := { features with
    DriverVersionFull := some v.semver
    DriverVersionMajor := some v.major
    DriverVersionMinor := some v.minor
    DriverVersionPatch := some v.patch }
  match v.revision with
  | some rev => { features with DriverVersionRevision := some rev }
  | none => features

/-- The `collectFromDaemon` of collector.go: the returned error, the record behind the
`features` pointer on return, and the events.  `close` is the deferred call. -/
def collectFromDaemon (w : World) (features : Features) : Option Err × Features × List Event :=
  match w.dial with
  | some err => (some err, features, [Event.dial])
  | none =>
    match w.serviceableDevices with
    | .error err => (some err, features, [Event.dial, Event.serviceableDevices, Event.close])
    | .ok devices =>
      match devices with
      | [] => (none, features, [Event.dial, Event.serviceableDevices, Event.close])
      | dev0 :: _ =>
        let features := { features with
          NPUPresent := true
          NPUCount := some (devices.length : Int) }
        match productFromDeviceID dev0 with
        | .error err =>
          (some err, features, [Event.dial, Event.serviceableDevices, Event.close])
        | .ok product =>
          let features := { features with NPUProduct := some (DeviceProduct.FeatureString product) }
          match DeviceProduct.Family product with
          | .error err =>
            (some err, features, [Event.dial, Event.serviceableDevices, Event.close])
          | .ok family =>
            let features := { features with NPUFamily := some family }
            match w.version with
            | .error _ =>
              (none, features,
                [Event.dial, Event.serviceableDevices, Event.version dev0, Event.close])
            | .ok drvVersion =>
              let v := parseDriverVersion drvVersion
              match v.err with
              | some err =>
                (some err, features,
                  [Event.dial, Event.serviceableDevices, Event.version dev0, Event.close])
              | none =>
                (none, features.setDriverVersion v,
                  [Event.dial, Event.serviceableDevices, Event.version dev0, Event.close])

/-- Lines 175-193 of `collectFromSysfs`: the driver version read and stored. -/
def collectVersionFromSysfs (w : World) (features : Features) :
    Option Err × Features × List Event :=
  let r := ReadDriverVersion w
  if r.1.err.isSome ∨ ¬ r.1.found then (r.1.err, features, r.2)
  else
    let v := parseDriverVersion r.1.version
    match v.err with
    | some err => (some err, features, r.2)
    | none => (none, features.setDriverVersion v, r.2)

/-- The `collectFromSysfs` of collector.go: the returned error, the record behind the
`features` pointer on return, and the events. -/
def collectFromSysfs (w : World) (features : Features) : Option Err × Features × List Event :=
  let d := DiscoverDevices w
  match d.1 with
  | .error err => (some err, features, d.2)
  | .ok devices =>
    match devices with
    | [] =>
      let r := collectVersionFromSysfs w features
      (r.1, r.2.1, d.2 ++ r.2.2)
    | dev0 :: _ =>
      let features := { features with
        NPUPresent := true
        NPUCount := some (devices.length : Int) }
      match productFromDeviceID dev0.DeviceID with
      | .error err => (some err, features, d.2)
      | .ok product =>
        let features := { features with NPUProduct := some (DeviceProduct.FeatureString product) }
        match DeviceProduct.Family product with
        | .error err => (some err, features, d.2)
        | .ok family =>
          let features := { features with NPUFamily := some family }
          let r := collectVersionFromSysfs w features
          (r.1, r.2.1, d.2 ++ r.2.2)

/-- The text `save` writes: the serialised record, after the expiry line unless
`noTimestamp` is set. -/
def saveText (c : FeaturesCollector) (w : World) (features : Features) : Str :=
  let text := features.toPlainText
  if ¬ c.noTimestamp then "# +expiry-time=".toList ++ w.expiry ++ ['\n'] ++ text else text

/-- The temporary path of `save`: `filepath.Join(dir, "." + filepath.Base(outputFile))`. -/
def tempPath (c : FeaturesCollector) : Str :=
  Join [Dir c.outputFile, '.' :: Base c.outputFile]

/-- The `save` of collector.go, step by step: the returned error, the states of the files
after each change the call makes, in order, and the events. -/
def saveRun (c : FeaturesCollector) (w : World) (features : Features) (fs : Files) :
    Option Err × List Files × List Event :=
  let text := saveText c w features
  let dir := Dir c.outputFile
  if dir = [] then (some (Err.invalidOutputPath c.outputFile), [], [])
  else
    match w.statDir with
    | some err =>
      (some (Err.wrap "output path validation failed".toList err), [], [Event.statDir dir])
    | none =>
      match w.writeTemp with
      | .failed err left =>
        (some (Err.wrap "writing temp feature file".toList err),
          (match left with
           | some part => fs.writeStates (tempPath c) part
           | none => []),
          [Event.statDir dir, Event.writeFile (tempPath c) text])
      | .done =>
        match w.renameTemp with
        | some err =>
          (some (Err.wrap "publishing feature file".toList err),
            fs.writeStates (tempPath c) text,
            [Event.statDir dir, Event.writeFile (tempPath c) text,
             Event.rename (tempPath c) c.outputFile])
        | none =>
          (none,
            fs.writeStates (tempPath c) text ++
              [(fs.write (tempPath c) text).rename (tempPath c) c.outputFile],
            [Event.statDir dir, Event.writeFile (tempPath c) text,
             Event.rename (tempPath c) c.outputFile])

/-- The `save` of collector.go: the returned error, the files afterwards (the last state
of the run, the files as they were when nothing changed), the events. -/
def save (c : FeaturesCollector) (w : World) (features : Features) (fs : Files) :
    Option Err × Files × List Event :=
  let r := saveRun c w features fs
  (r.1, r.2.1.getLast?.getD fs, r.2.2)

/-- The states of the files that a reader can observe while `save` runs: the state before
the call, then the states of the run. -/
def saveStates (c : FeaturesCollector) (w : World) (features : Features) (fs : Files) :
    List Files :=
  fs :: (saveRun c w features fs).2.1

/-- Lines 79-86 of `CollectOnce`, the part before `save`: the daemon attempt and, when it
returns an error, the sysfs attempt on the same record.  Returns the error that ends
`CollectOnce` early, the record that is handed to `save` otherwise, and the events. -/
def collectFeatures (w : World) : Option Err × Features × List Event :=
  let features := newFeatures
  let r := collectFromDaemon w features
  match r.1 with
  | some _ =>
    let r2 := collectFromSysfs w r.2.1
    match r2.1 with
    | some sysfsErr =>
      (some (Err.wrap "collecting features from sysfs".toList sysfsErr), r2.2.1,
        r.2.2 ++ r2.2.2)
    | none => (none, r2.2.1, r.2.2 ++ r2.2.2)
  | none => (none, r.2.1, r.2.2)

/-- The `CollectOnce` of collector.go: the returned error, the files afterwards, and the
events of the whole run. -/
def CollectOnce (c : FeaturesCollector) (w : World) (fs : Files) :
    Option Err × Files × List Event :=
  let r := collectFeatures w
  match r.1 with
  | some err => (some err, fs, r.2.2)
  | none =>
    let s := save c w r.2.1 fs
    match s.1 with
    | some err => (some (Err.wrap "saving features".toList err), s.2.1, r.2.2 ++ s.2.2)
    | none => (none, s.2.1, r.2.2 ++ s.2.2)

/-- Whether a run consulted the sysfs path. -/
def sysfsConsulted (events : List Event) : Bool := events.any Event.isSysfs

/-- The semantic-version portion of a raw version string: the trimmed input up to the
first of `-`, `+`, `~`. -/
def semverPortion (raw : Str) : Str :=
  (TrimSpace raw).takeWhile (fun c => decide (c ∉ revisionSeparators))

/-! ## The label file as the specification describes it -/

/-- The decimal text of an integer, as the library writes it. -/
def decimalText (n : Int) : Str := (toString n).toList

/-- The number a string of decimal digits stands for. -/
def decimalValue (digits : Str) : Nat :=
  digits.foldl (fun a ch => a * 10 + (ch.toNat - '0'.toNat)) 0

/-- The text `s` is the decimal notation of `n`: a `-` exactly for a negative number, then
digits only, at least one, without a leading zero unless the text is `0`, and of the
absolute value of `n`. -/
def isDecimalOf (s : Str) (n : Int) : Prop :=
  ∃ digits, s = (if n < 0 then ['-'] else []) ++ digits ∧ digits ≠ [] ∧
    (∀ ch ∈ digits, ch.isDigit = true) ∧ (digits.head? = some '0' → digits = ['0']) ∧
    decimalValue digits = n.natAbs

/-- One line of the label file: `rebellions.ai/<key>=<value>` and a newline. -/
def labelLine (key value : Str) : Str :=
  "rebellions.ai/".toList ++ key ++ '=' :: value ++ ['\n']

/-- The optional attributes of a record in the order of the file, each with its key and,
when present, the text of its value. -/
def Features.optionalAttributes (f : Features) : List (Str × Option Str) :=
  [ ("npu.count".toList, f.NPUCount.map decimalText),
    ("npu.family".toList, f.NPUFamily),
    ("npu.product".toList, f.NPUProduct),
    ("driver-version.full".toList, f.DriverVersionFull),
    ("driver-version.major".toList, f.DriverVersionMajor),
    ("driver-version.minor".toList, f.DriverVersionMinor),
    ("driver-version.patch".toList, f.DriverVersionPatch),
    ("driver-version.revision".toList, f.DriverVersionRevision) ]

/-- The lines of the label file of a record: the `npu.present` line, then one line for
each optional attribute that is present. -/
def Features.labelLines (f : Features) : List Str :=
  (if f.NPUPresent then "rebellions.ai/npu.present=true\n".toList
    else "rebellions.ai/npu.present=false\n".toList) ::
    f.optionalAttributes.filterMap (fun kv => kv.2.map (labelLine kv.1))

/-- The string fields of a record that are present contain no newline. -/
def Features.valuesOnOneLine (f : Features) : Prop :=
  ∀ v ∈ [f.NPUFamily, f.NPUProduct, f.DriverVersionFull, f.DriverVersionMajor,
    f.DriverVersionMinor, f.DriverVersionPatch, f.DriverVersionRevision],
    ∀ x, v = some x → '\n' ∉ x

/-- The line of an optional attribute: nothing when it is absent. -/
def optLine (key : Str) (o : Option Str) : Str :=
  match o with
  | some v => labelLine key v
  | none => []

/-- One `if v != nil { fmt.Fprintf(&b, ...) }` of `toPlainText`, on the builder `b`. -/
def stepLine (key : Str) (o : Option Str) (b : Str) : Str :=
  match o with
  | some v => b ++ labelLine key v
  | none => b

/-- The record of a partial success: devices present, counted and identified, and all
five driver-version fields absent. -/
def presenceOnly (count : Int) (family product : Str) : Features :=
  { NPUPresent := true, NPUCount := some count, NPUFamily := some family,
    NPUProduct := some product,
    DriverVersionFull := none, DriverVersionMajor := none, DriverVersionMinor := none,
    DriverVersionPatch := none, DriverVersionRevision := none }

/-! ## Sample environments -/

/-- A collector with the default output path and the expiry line switched off. -/
def sampleCollector : FeaturesCollector :=
  { daemonURL := "127.0.0.1:50051".toList
    outputFile := "/etc/kubernetes/node-feature-discovery/features.d/rbln-features".toList
    noTimestamp := true }

/-- No label file has been published yet. -/
def noFiles : Files :=
  { node := fun _ => none, data := fun _ => [], next := 0, wf := fun _ _ h => nomatch h }

/-- The daemon answers with an empty device list; sysfs has no accelerator and no driver;
the publish step succeeds. -/
def worldNoDevices : World :=
  { dial := none
    serviceableDevices := .ok []
    version := .error (Err.external "no such device".toList)
    pciDevices := .ok []
    kernelVersionStat := .notExist
    kernelVersionRead := .error (Err.external "no such file".toList)
    expiry := "2026-01-01T01:00:00Z".toList
    statDir := none
    writeTemp := .done
    renameTemp := none }

/-- A PCI entry of the accelerator vendor with device identifier `1020` and no
`sriov_numvfs` attribute. -/
def atomEntry : PciEntry :=
  { name := "0000:01:00.0".toList
    vendor := .ok "0x1eff\n".toList
    sriov_numvfs := .error (Err.external "no such file".toList)
    device := .ok "0x1020\n".toList }

/-- The daemon is unreachable; sysfs shows one device `1020` and no driver version. -/
def worldSysfsOnly : World :=
  { worldNoDevices with
    dial := some (Err.external "failed to dial rbln-daemon".toList)
    serviceableDevices := .error (Err.external "not connected".toList)
    pciDevices := .ok [atomEntry] }

/-- As `worldSysfsOnly`, but the directory of the output file does not exist. -/
def worldSysfsOnlyNoDir : World :=
  { worldSysfsOnly with statDir := some (Err.external "no such file or directory".toList) }

/-- The daemon lists one device `1020` and fails to give its version; sysfs is as in
`worldSysfsOnly`. -/
def worldDaemonNoVersion : World :=
  { worldSysfsOnly with
    dial := none
    serviceableDevices := .ok ["1020".toList]
    version := .error (Err.external "failed to GetVersion RPC".toList) }

/-- The daemon lists one device `1020` and reports the version `1.2`, which does not
parse; sysfs has no accelerator and no driver. -/
def worldDaemonMalformedVersion : World :=
  { worldNoDevices with
    serviceableDevices := .ok ["1020".toList]
    version := .ok "1.2".toList }

/-! ## Notions the claims on the collection policy use -/

/-- Whether a run reached the publish step: one of the file-system calls of `save`. -/
def publishAttempted (events : List Event) : Bool := events.any Event.isPublish

/-- The device part of the sysfs path goes through: the scan finds nothing, or it finds
devices and the first one has a product and a family. -/
def scanAccepted (w : World) : Prop :=
  (DiscoverDevices w).1 = .ok [] ∨
    ∃ d ds p family, (DiscoverDevices w).1 = .ok (d :: ds) ∧
      productFromDeviceID d.DeviceID = .ok p ∧ DeviceProduct.Family p = .ok family

/-- The driver-version step of the sysfs path fails: the existence check fails for another
reason than absence, the file exists and cannot be read, or its content does not parse. -/
def versionStepFails (w : World) : Prop :=
  (∃ err, w.kernelVersionStat = .failed err) ∨
    (w.kernelVersionStat = .found ∧
      ((∃ err, w.kernelVersionRead = .error err) ∨
        ∃ bytes, w.kernelVersionRead = .ok bytes ∧
          (parseDriverVersion (TrimSpace bytes)).err ≠ none))

/-- The daemon is unreachable and the PCI directory cannot be listed. -/
def worldBothFail : World :=
  { worldSysfsOnly with pciDevices := .error (Err.external "permission denied".toList) }

/-- The label file of an earlier cycle is in place. -/
def previousFiles : Files :=
  { node := fun q => if q = sampleCollector.outputFile then some 0 else none
    data := fun _ => "rebellions.ai/npu.present=false\n".toList
    next := 1
    wf := by
      intro p i h
      by_cases hq : p = sampleCollector.outputFile
      · simp only [hq, if_true, Option.some.injEq] at h
        omega
      · simp [hq] at h }

/-- The label file of an earlier cycle is in place, and the name of the temporary file
is a hard link to it. -/
def linkedFiles : Files :=
  { node := fun q =>
      if q = sampleCollector.outputFile ∨ q = tempPath sampleCollector then some 0 else none
    data := fun _ => "rebellions.ai/npu.present=false\n".toList
    next := 1
    wf := by
      intro p i h
      by_cases hq : p = sampleCollector.outputFile ∨ p = tempPath sampleCollector
      · simp only [hq, if_true, Option.some.injEq] at h
        omega
      · simp [hq] at h }

/-- Two paths name the same file: they are the same path, or links to one file. -/
def namesSameFile (fs : Files) (p q : Str) : Prop :=
  p = q ∨ ∃ i, fs.node p = some i ∧ fs.node q = some i

/-- The daemon lists one device with the identifier `9999`, which the catalog does not
have; sysfs has no accelerator and no driver; the publish step succeeds. -/
def worldDaemonUnknownDevice : World :=
  { worldNoDevices with serviceableDevices := .ok ["9999".toList] }

/-! ## The device scan as the specification describes it -/

/-- The entry is a serviceable accelerator: its vendor attribute, white space trimmed, is
`0x1eff`, and its `sriov_numvfs` attribute is absent or unreadable, or, white space
trimmed, is not an integer or is zero. -/
def PciEntry.serviceable (e : PciEntry) : Bool :=
  (match e.vendor with
    | .ok vendorBytes => decide (TrimSpace vendorBytes = rblnVendorID)
    | .error _ => false) &&
  (match e.sriov_numvfs with
    | .ok data =>
      (match Atoi (TrimSpace data) with
       | some numvfs => decide (numvfs = 0)
       | none => true)
    | .error _ => true)

/-- The identifier of the entry: its device attribute, white space trimmed and one leading
`0x` removed (empty where the attribute cannot be read). -/
def PciEntry.identifier (e : PciEntry) : Str :=
  match e.device with
  | .ok deviceIDBytes => TrimPrefix (TrimSpace deviceIDBytes) "0x".toList
  | .error _ => []

/-- A physical function with SR-IOV switched on: four virtual functions. -/
def sriovEntry : PciEntry :=
  { name := "0000:02:00.0".toList
    vendor := .ok "0x1eff\n".toList
    sriov_numvfs := .ok "4\n".toList
    device := .ok "0x1220\n".toList }

/-- A device of another vendor, whose `device` attribute cannot be read. -/
def otherVendorEntry : PciEntry :=
  { name := "0000:00:1f.0".toList
    vendor := .ok "0x8086\n".toList
    sriov_numvfs := .error (Err.external "no such file".toList)
    device := .error (Err.external "permission denied".toList) }

/-- An accelerator whose `sriov_numvfs` reads `0` and whose identifier has no `0x`. -/
def plainEntry : PciEntry :=
  { name := "0000:03:00.0".toList
    vendor := .ok " 0x1eff ".toList
    sriov_numvfs := .ok "0\n".toList
    device := .ok "1250\n".toList }

/-- The daemon is unreachable; the PCI directory lists four entries, two of which are
serviceable accelerators. -/
def worldMixedPci : World :=
  { worldSysfsOnly with pciDevices := .ok [otherVendorEntry, atomEntry, sriovEntry, plainEntry] }

/-- None of the five driver-version fields of the record is present. -/
def Features.versionless (f : Features) : Prop :=
  f.DriverVersionFull = none ∧ f.DriverVersionMajor = none ∧ f.DriverVersionMinor = none ∧
    f.DriverVersionPatch = none ∧ f.DriverVersionRevision = none

/-- The driver-version fields of the record are the results of one parse: full, major,
minor and patch are present, and the revision is present exactly if the parse has one. -/
def Features.versionFrom (f : Features) (v : ParsedVersion) : Prop :=
  f.DriverVersionFull = some v.semver ∧ f.DriverVersionMajor = some v.major ∧
    f.DriverVersionMinor = some v.minor ∧ f.DriverVersionPatch = some v.patch ∧
    f.DriverVersionRevision = v.revision

/-- The daemon lists one device `1020` and reports the driver version
`1.2.3-rc1+build7`; the publish step succeeds. -/
def worldDaemonFull : World :=
  { worldNoDevices with
    serviceableDevices := .ok ["1020".toList]
    version := .ok "1.2.3-rc1+build7".toList }

/-- The record of `worldDaemonFull`. -/
def fullRecord : Features :=
  { NPUPresent := true, NPUCount := some 1, NPUFamily := some "ATOM".toList,
    NPUProduct := some "RBLN-CA02".toList,
    DriverVersionFull := some "1.2.3".toList, DriverVersionMajor := some "1".toList,
    DriverVersionMinor := some "2".toList, DriverVersionPatch := some "3".toList,
    DriverVersionRevision := some "rc1+build7".toList }

/-! ## Notions the claims on the publish step use -/

/-- The text of a path after its last `/` (the whole path when it has none). -/
def lastElem (path : Str) : Str := (path.reverse.takeWhile (· ≠ '/')).reverse

/-- A path element that `Clean` keeps: not empty, not `.`, and without `/`. -/
def keptElem (e : Str) : Prop := e ≠ [] ∧ e ≠ ['.'] ∧ '/' ∉ e

/-- The result of `Clean` for the path elements it keeps. -/
def renderPath (rooted : Bool) (elems : List Str) : Str :=
  let s : Str := (if rooted then ['/'] else []) ++ List.intercalate ['/'] elems
  if s = [] then ['.'] else s

/-- A collector whose output path is the root directory. -/
def rootCollector : FeaturesCollector :=
  { daemonURL := "127.0.0.1:50051".toList, outputFile := "/".toList, noTimestamp := true }

/-- As `worldDaemonFull`, but writing the temporary file fails after five characters. -/
def worldWriteFails : World :=
  { worldDaemonFull with
    writeTemp := .failed (Err.external "no space left on device".toList)
      (some "rebel".toList) }

/-- As `worldDaemonFull`, but the rename fails. -/
def worldRenameFails : World :=
  { worldDaemonFull with renameTemp := some (Err.external "permission denied".toList) }

/-- The record of one device `1020` without a driver version. -/
def presenceOnlySample : Features := presenceOnly 1 "ATOM".toList "RBLN-CA02".toList

/-! ## Lemmas on the string functions -/

theorem IndexAny_none {s chars : Str} : IndexAny s chars = none ↔ ∀ c ∈ s, c ∉ chars := by
  induction s with
  | nil => simp [IndexAny]
  | cons c cs ih =>
    by_cases hc : c ∈ chars
    · simp [IndexAny, hc]
    · simp [IndexAny, hc, ih]

theorem IndexAny_some {s chars : Str} {i : Nat} (h : IndexAny s chars = some i) :
    ∃ c, c ∈ chars ∧ s = s.take i ++ c :: s.drop (i + 1) ∧ ∀ x ∈ s.take i, x ∉ chars := by
  induction s generalizing i with
  | nil => simp [IndexAny] at h
  | cons c cs ih =>
    by_cases hc : c ∈ chars
    · simp [IndexAny, hc] at h
      subst h
      exact ⟨c, hc, by simp, by simp⟩
    · simp only [IndexAny, hc, if_false, Option.map_eq_some'] at h
      obtain ⟨j, hj, rfl⟩ := h
      obtain ⟨d, hd, heq, hpre⟩ := ih hj
      refine ⟨d, hd, ?_, ?_⟩
      · simp only [List.take_succ_cons, List.drop_succ_cons, List.cons_append]
        rw [← heq]
      · intro x hx
        simp only [List.take_succ_cons, List.mem_cons] at hx
        rcases hx with rfl | hx
        · exact hc
        · exact hpre x hx

theorem take_IndexAny_eq_takeWhile {s chars : Str} {i : Nat} (h : IndexAny s chars = some i) :
    s.take i = s.takeWhile (fun c => decide (c ∉ chars)) := by
  induction s generalizing i with
  | nil => simp
  | cons c cs ih =>
    by_cases hc : c ∈ chars
    · simp [IndexAny, hc] at h
      subst h
      simp [List.takeWhile, hc]
    · simp only [IndexAny, hc, if_false, Option.map_eq_some'] at h
      obtain ⟨j, hj, rfl⟩ := h
      simp [List.takeWhile, hc, ih hj]

theorem takeWhile_of_IndexAny_none {s chars : Str} (h : IndexAny s chars = none) :
    s.takeWhile (fun c => decide (c ∉ chars)) = s := by
  rw [IndexAny_none] at h
  rw [List.takeWhile_eq_self_iff]
  intro c hc
  simpa using h c hc

/-- The shape of a split: a first piece without the separator, and either nothing more, or
the separator and the split of what follows it. -/
theorem Split_spec (s : Str) (sep : Char) :
    ∃ hd tl, Split s sep = hd :: tl ∧ sep ∉ hd ∧
      ((tl = [] ∧ s = hd) ∨ ∃ rest, s = hd ++ sep :: rest ∧ tl = Split rest sep) := by
  induction s with
  | nil => exact ⟨[], [], by simp [Split], by simp, Or.inl ⟨rfl, rfl⟩⟩
  | cons c cs ih =>
    by_cases hc : c = sep
    · subst hc
      exact ⟨[], Split cs c, by simp [Split], by simp, Or.inr ⟨cs, by simp, rfl⟩⟩
    · obtain ⟨hd, tl, hsplit, hno, hrest⟩ := ih
      refine ⟨c :: hd, tl, by simp [Split, hc, hsplit], ?_, ?_⟩
      · simp only [List.mem_cons, not_or]
        exact ⟨fun h => hc h.symm, hno⟩
      · rcases hrest with ⟨h1, h2⟩ | ⟨rest, h1, h2⟩
        · exact Or.inl ⟨h1, by rw [h2]⟩
        · exact Or.inr ⟨rest, by rw [h1]; simp, h2⟩

theorem Split_length (s : Str) (sep : Char) : (Split s sep).length = s.count sep + 1 := by
  induction s with
  | nil => simp [Split]
  | cons c cs ih =>
    obtain ⟨hd, tl, hsplit, -, -⟩ := Split_spec cs sep
    by_cases hc : c = sep
    · subst hc
      simp [Split, ih]
    · have hne : (c == sep) = false := by simpa using hc
      rw [List.count_cons, hne]
      simp only [Split, hc, if_false, List.length_cons, Bool.false_eq_true]
      rw [hsplit] at ih ⊢
      simpa using ih

/-- The two string results of `parseDriverVersion`, whatever its outcome. -/
theorem parseDriverVersion_semver (raw : Str) :
    (parseDriverVersion raw).semver = semverPortion raw := by
  simp only [parseDriverVersion, semverPortion]
  cases h : IndexAny (TrimSpace raw) revisionSeparators with
  | none => split <;> exact (takeWhile_of_IndexAny_none h).symm
  | some i => split <;> simp [take_IndexAny_eq_takeWhile h]

theorem parseDriverVersion_err (raw : Str) :
    (parseDriverVersion raw).err =
      if (Split (semverPortion raw) '.').length < 3 then some (Err.splitSemver (semverPortion raw))
      else none := by
  rw [← parseDriverVersion_semver]
  simp only [parseDriverVersion]
  cases h : IndexAny (TrimSpace raw) revisionSeparators <;> split <;> simp [*]

/-- What `TrimSpace` removes is white space, and what it leaves neither starts nor ends
with white space. -/
theorem TrimSpace_spec (s : Str) :
    ∃ l r, s = l ++ TrimSpace s ++ r ∧ (∀ c ∈ l, isSpace c = true) ∧
      (∀ c ∈ r, isSpace c = true) ∧
      (∀ c, (TrimSpace s).head? = some c → isSpace c = false) ∧
      (∀ c, (TrimSpace s).getLast? = some c → isSpace c = false) := by
  have hm := List.takeWhile_append_dropWhile isSpace (s.dropWhile isSpace).reverse
  have hs := List.takeWhile_append_dropWhile isSpace s
  have hmid : s.dropWhile isSpace =
      TrimSpace s ++ ((s.dropWhile isSpace).reverse.takeWhile isSpace).reverse := by
    have h := congrArg List.reverse hm
    rw [List.reverse_append, List.reverse_reverse] at h
    exact h.symm
  have hlast : ∀ c, (TrimSpace s).getLast? = some c → isSpace c = false := by
    intro c hc
    simp only [TrimSpace, List.getLast?_reverse] at hc
    have := List.head?_dropWhile_not isSpace (s.dropWhile isSpace).reverse
    rw [hc] at this
    simpa using this
  refine ⟨s.takeWhile isSpace, ((s.dropWhile isSpace).reverse.takeWhile isSpace).reverse,
    ?_, ?_, ?_, ?_, hlast⟩
  · rw [List.append_assoc, ← hmid, hs]
  · intro c hc
    exact List.mem_takeWhile_imp hc
  · intro c hc
    exact List.mem_takeWhile_imp (List.mem_reverse.mp hc)
  · intro c hc
    have hd := List.head?_dropWhile_not isSpace s
    cases ht : TrimSpace s with
    | nil => simp [ht] at hc
    | cons a t =>
      rw [ht] at hc hmid
      simp only [List.head?_cons, Option.some.injEq] at hc
      subst hc
      rw [hmid] at hd
      simpa using hd

theorem parseDriverVersion_parts (raw : Str)
    (hlen : ¬ (Split (semverPortion raw) '.').length < 3) :
    (parseDriverVersion raw).major = (Split (semverPortion raw) '.').getD 0 [] ∧
      (parseDriverVersion raw).minor = (Split (semverPortion raw) '.').getD 1 [] ∧
      (parseDriverVersion raw).patch = (Split (semverPortion raw) '.').getD 2 [] := by
  cases hidx : IndexAny (TrimSpace raw) revisionSeparators with
  | none =>
    have hp : semverPortion raw = TrimSpace raw := takeWhile_of_IndexAny_none hidx
    rw [hp] at hlen ⊢
    simp only [parseDriverVersion, hidx, if_neg hlen, and_self]
  | some i =>
    have hp : semverPortion raw = (TrimSpace raw).take i := (take_IndexAny_eq_takeWhile hidx).symm
    rw [hp] at hlen ⊢
    simp only [parseDriverVersion, hidx, if_neg hlen, and_self]

/-! ## The version parser (C1-C3) -/

/-- C1: `parseDriverVersion` splits at the first separator only.  With `t` the trimmed
input: if `t` has none of `-`, `+`, `~`, then `semver = t` and the revision is absent;
otherwise the revision is present, `t = semver ++ separator ++ revision` for one of the
three separators, and `semver` contains no separator.  `t` itself is the input without
its leading and trailing white space.  `"1.2.3"` and `"1.2.3-rc1+build7"` give the
results the specification lists. -/
theorem parseDriverVersion_splits_at_first_separator (raw : Str) :
    ((∀ c ∈ TrimSpace raw, c ∉ revisionSeparators) →
      (parseDriverVersion raw).semver = TrimSpace raw ∧
        (parseDriverVersion raw).revision = none) ∧
    ((∃ c ∈ TrimSpace raw, c ∈ revisionSeparators) →
      ∃ sep rev, sep ∈ revisionSeparators ∧ (parseDriverVersion raw).revision = some rev ∧
        TrimSpace raw = (parseDriverVersion raw).semver ++ sep :: rev ∧
        ∀ c ∈ (parseDriverVersion raw).semver, c ∉ revisionSeparators) ∧
    (∃ l r, raw = l ++ TrimSpace raw ++ r ∧ (∀ c ∈ l, isSpace c = true) ∧
      (∀ c ∈ r, isSpace c = true) ∧
      (∀ c, (TrimSpace raw).head? = some c → isSpace c = false) ∧
      (∀ c, (TrimSpace raw).getLast? = some c → isSpace c = false)) ∧
    ((parseDriverVersion "1.2.3".toList).semver = "1.2.3".toList ∧
      (parseDriverVersion "1.2.3".toList).revision = none) ∧
    ((parseDriverVersion "1.2.3-rc1+build7".toList).semver = "1.2.3".toList ∧
      (parseDriverVersion "1.2.3-rc1+build7".toList).revision = some "rc1+build7".toList) := by
  refine ⟨?_, ?_, TrimSpace_spec raw, by decide, by decide⟩
  · intro h
    have hnone := IndexAny_none.mpr h
    simp only [parseDriverVersion, hnone]
    split <;> simp
  · intro h
    cases hidx : IndexAny (TrimSpace raw) revisionSeparators with
    | none =>
      obtain ⟨c, hc, hsep⟩ := h
      exact absurd hsep (IndexAny_none.mp hidx c hc)
    | some i =>
      obtain ⟨sep, hsep, heq, hpre⟩ := IndexAny_some hidx
      refine ⟨sep, (TrimSpace raw).drop (i + 1), hsep, ?_, ?_, ?_⟩
      · simp only [parseDriverVersion, hidx]
        split <;> simp
      · have hsv : (parseDriverVersion raw).semver = (TrimSpace raw).take i := by
          simp only [parseDriverVersion, hidx]
          split <;> simp
        rw [hsv]
        exact heq
      · have hsv : (parseDriverVersion raw).semver = (TrimSpace raw).take i := by
          simp only [parseDriverVersion, hidx]
          split <;> simp
        rw [hsv]
        exact hpre

/-- C1 at `"1.2.3-rc1+build7"`: only the first separator splits. -/
theorem parseDriverVersion_splits_at_first_separator_witness :
    ∃ sep rev, sep ∈ revisionSeparators ∧
      (parseDriverVersion "1.2.3-rc1+build7".toList).revision = some rev ∧
      TrimSpace "1.2.3-rc1+build7".toList =
        (parseDriverVersion "1.2.3-rc1+build7".toList).semver ++ sep :: rev ∧
      ∀ c ∈ (parseDriverVersion "1.2.3-rc1+build7".toList).semver, c ∉ revisionSeparators :=
  (parseDriverVersion_splits_at_first_separator "1.2.3-rc1+build7".toList).2.1
    ⟨'-', by decide, by decide⟩

/-- C2: `parseDriverVersion` fails if and only if the semantic-version portion (the
trimmed input up to the first of `-`, `+`, `~`) has fewer than 3 dot-separated
components, that is, fewer than two `.` characters; the portion is what the function
returns as `semver`.  `"1.2"` fails; the components are not validated, `"a.b.c"` succeeds. -/
theorem parseDriverVersion_fails_iff_fewer_than_three_components (raw : Str) :
    ((parseDriverVersion raw).err ≠ none ↔ (Split (semverPortion raw) '.').length < 3) ∧
    ((Split (semverPortion raw) '.').length < 3 ↔ (semverPortion raw).count '.' < 2) ∧
    (parseDriverVersion raw).semver = semverPortion raw ∧
    (parseDriverVersion "1.2".toList).err = some (Err.splitSemver "1.2".toList) ∧
    (parseDriverVersion "a.b.c".toList).err = none ∧
    (parseDriverVersion "a.b.c".toList).major = "a".toList := by
  refine ⟨?_, ?_, parseDriverVersion_semver raw, by decide, by decide, by decide⟩
  · rw [parseDriverVersion_err]
    split <;> simp [*]
  · rw [Split_length]
    omega

/-- C3: whenever `parseDriverVersion` succeeds, `major`, `minor` and `patch` are the first
three `.`-separated components of `semver`, none of them contains a `.`, and
`semver = major ++ "." ++ minor ++ "." ++ patch ++ rest`, where `rest` is empty or starts
with `.`: what follows the third component is kept in `semver` and otherwise ignored. -/
theorem parseDriverVersion_components (raw : Str) (h : (parseDriverVersion raw).err = none) :
    ∃ more rest,
      Split (parseDriverVersion raw).semver '.' =
        (parseDriverVersion raw).major :: (parseDriverVersion raw).minor ::
          (parseDriverVersion raw).patch :: more ∧
      (parseDriverVersion raw).semver =
        (parseDriverVersion raw).major ++ '.' :: (parseDriverVersion raw).minor ++
          '.' :: (parseDriverVersion raw).patch ++ rest ∧
      (rest = [] ∨ ∃ r, rest = '.' :: r) ∧
      '.' ∉ (parseDriverVersion raw).major ∧ '.' ∉ (parseDriverVersion raw).minor ∧
      '.' ∉ (parseDriverVersion raw).patch := by
  have herr := parseDriverVersion_err raw
  rw [h] at herr
  have hlen : ¬ (Split (semverPortion raw) '.').length < 3 := by
    intro hlt
    rw [if_pos hlt] at herr
    exact absurd herr (by simp)
  have hsv := parseDriverVersion_semver raw
  obtain ⟨hmaj, hmin, hpat⟩ := parseDriverVersion_parts raw hlen
  rw [hsv, hmaj, hmin, hpat]
  obtain ⟨a, t1, e1, n1, r1⟩ := Split_spec (semverPortion raw) '.'
  rw [e1] at hlen ⊢
  rcases r1 with ⟨ht1, -⟩ | ⟨s1, hs1, ht1⟩
  · subst ht1; simp at hlen
  obtain ⟨b, t2, e2, n2, r2⟩ := Split_spec s1 '.'
  rw [e2] at ht1
  subst ht1
  rcases r2 with ⟨ht2, -⟩ | ⟨s2, hs2, ht2⟩
  · subst ht2; simp at hlen
  obtain ⟨c, t3, e3, n3, r3⟩ := Split_spec s2 '.'
  rw [e3] at ht2
  subst ht2
  refine ⟨t3, s2.drop c.length, by simp, ?_, ?_, by simpa using n1, by simpa using n2,
    by simpa using n3⟩
  · rcases r3 with ⟨-, hc⟩ | ⟨s3, hs3, -⟩
    · subst hc; rw [hs1, hs2]; simp
    · rw [hs1, hs2, hs3]; simp
  · rcases r3 with ⟨-, hc⟩ | ⟨s3, hs3, -⟩
    · subst hc; simp
    · rw [hs3]; simp

/-- C3 at `"  1.2.3.4  "`: the fourth component is ignored and stays in `semver`. -/
theorem parseDriverVersion_components_witness :
    parseDriverVersion "  1.2.3.4  ".toList =
        { semver := "1.2.3.4".toList, revision := none, major := "1".toList,
          minor := "2".toList, patch := "3".toList, err := none } ∧
      ∃ more rest,
        Split (parseDriverVersion "  1.2.3.4  ".toList).semver '.' =
          (parseDriverVersion "  1.2.3.4  ".toList).major ::
            (parseDriverVersion "  1.2.3.4  ".toList).minor ::
            (parseDriverVersion "  1.2.3.4  ".toList).patch :: more ∧
        (parseDriverVersion "  1.2.3.4  ".toList).semver =
          (parseDriverVersion "  1.2.3.4  ".toList).major ++
            '.' :: (parseDriverVersion "  1.2.3.4  ".toList).minor ++
            '.' :: (parseDriverVersion "  1.2.3.4  ".toList).patch ++ rest ∧
        (rest = [] ∨ ∃ r, rest = '.' :: r) ∧
        '.' ∉ (parseDriverVersion "  1.2.3.4  ".toList).major ∧
        '.' ∉ (parseDriverVersion "  1.2.3.4  ".toList).minor ∧
        '.' ∉ (parseDriverVersion "  1.2.3.4  ".toList).patch :=
  ⟨by decide, parseDriverVersion_components "  1.2.3.4  ".toList (by decide)⟩

/-! ## The device catalog (C4, C5) -/

theorem lookup_of_not_mem_keys {l : List (Str × DeviceProduct)} {id : Str}
    (h : id ∉ l.map Prod.fst) : l.lookup id = none := by
  rw [List.lookup_eq_none_iff]
  intro q hq
  simp only [bne_iff_ne, ne_eq]
  intro heq
  exact h (List.mem_map.mpr ⟨q, hq, heq.symm⟩)

theorem mem_of_lookup {l : List (Str × DeviceProduct)} {id : Str} {p : DeviceProduct}
    (h : l.lookup id = some p) : (id, p) ∈ l := by
  obtain ⟨l₁, l₂, rfl, -⟩ := List.lookup_eq_some_iff.mp h
  simp

/-- C4: `productFromDeviceID` is an exact-match lookup in the fixed table of 8 entries:
each of the 8 identifiers gives its product code; every other string gives the error
`unknown device id` (also `""`, `"0x1020"` and identifiers with white space around
them); a product is only ever returned for a pair of the table, never as a default. -/
theorem productFromDeviceID_exact_lookup (id : Str) :
    (productFromDeviceID "1020".toList = .ok "CA02".toList ∧
      productFromDeviceID "1021".toList = .ok "CA02".toList ∧
      productFromDeviceID "1120".toList = .ok "CA12".toList ∧
      productFromDeviceID "1121".toList = .ok "CA02".toList ∧
      productFromDeviceID "1150".toList = .ok "CA15".toList ∧
      productFromDeviceID "1220".toList = .ok "CA22".toList ∧
      productFromDeviceID "1221".toList = .ok "CA22".toList ∧
      productFromDeviceID "1250".toList = .ok "CA25".toList) ∧
    (id ∉ ["1020".toList, "1021".toList, "1120".toList, "1121".toList, "1150".toList,
        "1220".toList, "1221".toList, "1250".toList] →
      productFromDeviceID id = .error (Err.unknownDeviceID id)) ∧
    (∀ p, productFromDeviceID id = .ok p → (id, p) ∈ deviceProductMap) ∧
    deviceProductMap.length = 8 ∧
    (productFromDeviceID [] = .error (Err.unknownDeviceID []) ∧
      productFromDeviceID "0x1020".toList = .error (Err.unknownDeviceID "0x1020".toList) ∧
      productFromDeviceID " 1020".toList = .error (Err.unknownDeviceID " 1020".toList) ∧
      productFromDeviceID "1020\n".toList = .error (Err.unknownDeviceID "1020\n".toList)) := by
  refine ⟨⟨rfl, rfl, rfl, rfl, rfl, rfl, rfl, rfl⟩, ?_, ?_, rfl, ⟨rfl, rfl, rfl, rfl⟩⟩
  · intro h
    have hkeys : deviceProductMap.map Prod.fst =
        ["1020".toList, "1021".toList, "1120".toList, "1121".toList, "1150".toList,
          "1220".toList, "1221".toList, "1250".toList] := rfl
    rw [← hkeys] at h
    simp only [productFromDeviceID, lookup_of_not_mem_keys h]
  · intro p h
    unfold productFromDeviceID at h
    cases hl : deviceProductMap.lookup id with
    | none => rw [hl] at h; cases h
    | some q =>
      rw [hl] at h
      cases h
      exact mem_of_lookup hl

/-- C4 at `"1030"`, an identifier outside the table. -/
theorem productFromDeviceID_exact_lookup_witness :
    productFromDeviceID "1030".toList = .error (Err.unknownDeviceID "1030".toList) :=
  (productFromDeviceID_exact_lookup "1030".toList).2.1 (by decide)

/-- C5: `DeviceProduct.Family` classifies by the two-letter start of the code: `"ATOM"`
for every code that starts with `"CA"`, `"REBEL"` for every code that starts with
`"CR"`, and the error `unknown product name` for every other code. -/
theorem Family_by_two_letter_start (p : DeviceProduct) :
    ("CA".toList <+: p → DeviceProduct.Family p = .ok "ATOM".toList) ∧
    ("CR".toList <+: p → DeviceProduct.Family p = .ok "REBEL".toList) ∧
    (¬ "CA".toList <+: p → ¬ "CR".toList <+: p →
      DeviceProduct.Family p = .error (Err.unknownProductName p)) ∧
    DeviceProduct.Family "CA02".toList = .ok "ATOM".toList ∧
    DeviceProduct.Family "CR01".toList = .ok "REBEL".toList ∧
    DeviceProduct.Family "XX01".toList = .error (Err.unknownProductName "XX01".toList) := by
  refine ⟨?_, ?_, ?_, rfl, rfl, rfl⟩
  · intro h
    have h1 : HasPrefix p "CA".toList = true := List.isPrefixOf_iff_prefix.mpr h
    simp only [DeviceProduct.Family, h1, if_true]
    rfl
  · intro h
    have h1 : HasPrefix p "CR".toList = true := List.isPrefixOf_iff_prefix.mpr h
    have h0 : HasPrefix p "CA".toList = false := by
      rw [Bool.eq_false_iff]
      intro hca
      obtain ⟨t, ht⟩ := h
      obtain ⟨u, hu⟩ := List.isPrefixOf_iff_prefix.mp hca
      rw [← ht] at hu
      simp at hu
    simp only [DeviceProduct.Family, h0, h1, if_true]
    rfl
  · intro hca hcr
    have h0 : HasPrefix p "CA".toList = false := by
      rw [Bool.eq_false_iff]
      exact fun h => hca (List.isPrefixOf_iff_prefix.mp h)
    have h1 : HasPrefix p "CR".toList = false := by
      rw [Bool.eq_false_iff]
      exact fun h => hcr (List.isPrefixOf_iff_prefix.mp h)
    rw [DeviceProduct.Family, h0, h1]
    rfl

/-- C5 at `"CA25"`. -/
theorem Family_by_two_letter_start_witness :
    DeviceProduct.Family "CA25".toList = .ok "ATOM".toList :=
  (Family_by_two_letter_start "CA25".toList).1 ⟨"25".toList, rfl⟩

/-! ## The serialisation (C6) -/

theorem digitChar_ne_newline (n : Nat) (h : n < 10) : Nat.digitChar n ≠ '\n' := by
  interval_cases n <;> decide

theorem toDigitsCore_no_newline (fuel n : Nat) (ds : List Char) (h : '\n' ∉ ds) :
    '\n' ∉ Nat.toDigitsCore 10 fuel n ds := by
  induction fuel generalizing n ds with
  | zero => simpa [Nat.toDigitsCore] using h
  | succ k ih =>
    have hd : '\n' ∉ Nat.digitChar (n % 10) :: ds := by
      simp only [List.mem_cons, not_or]
      exact ⟨fun e => digitChar_ne_newline _ (Nat.mod_lt _ (by decide)) e.symm, h⟩
    simp only [Nat.toDigitsCore]
    split
    · exact hd
    · exact ih _ _ hd

theorem formatInt_no_newline (v : Int) : '\n' ∉ formatInt v := by
  cases v with
  | ofNat m => exact toDigitsCore_no_newline _ _ _ (by simp)
  | negSucc m =>
    simp only [formatInt, List.mem_cons, not_or]
    exact ⟨by decide, toDigitsCore_no_newline _ _ _ (by simp)⟩

theorem formatInt_eq_decimalText (v : Int) : formatInt v = decimalText v := by
  cases v with
  | ofNat m => rfl
  | negSucc m => rfl

theorem digitChar_digit (k : Nat) (h : k < 10) :
    (Nat.digitChar k).isDigit = true ∧ (Nat.digitChar k).toNat - '0'.toNat = k ∧
      (Nat.digitChar k = '0' → k = 0) := by
  interval_cases k <;> decide

theorem toDigitsCore_digits (fuel n : Nat) (ds : Str) (h : ∀ ch ∈ ds, ch.isDigit = true) :
    ∀ ch ∈ Nat.toDigitsCore 10 fuel n ds, ch.isDigit = true := by
  induction fuel generalizing n ds with
  | zero => simpa [Nat.toDigitsCore] using h
  | succ k ih =>
    have hd : ∀ ch ∈ Nat.digitChar (n % 10) :: ds, ch.isDigit = true := by
      intro ch hch
      simp only [List.mem_cons] at hch
      rcases hch with rfl | hch
      · exact (digitChar_digit _ (Nat.mod_lt _ (by decide))).1
      · exact h ch hch
    simp only [Nat.toDigitsCore]
    split
    · exact hd
    · exact ih _ _ hd

theorem toDigitsCore_value (fuel n : Nat) (ds : Str) (h : n < fuel) :
    (Nat.toDigitsCore 10 fuel n ds).foldl (fun a ch => a * 10 + (ch.toNat - '0'.toNat)) 0 =
      ds.foldl (fun a ch => a * 10 + (ch.toNat - '0'.toNat)) n := by
  induction fuel generalizing n ds with
  | zero => omega
  | succ k ih =>
    have hk := (digitChar_digit (n % 10) (Nat.mod_lt _ (by decide))).2.1
    simp only [Nat.toDigitsCore]
    split
    · rename_i h0
      have hn : n % 10 = n := Nat.mod_eq_of_lt (by omega)
      rw [hn] at hk
      simp only [List.foldl_cons, Nat.zero_mul, Nat.zero_add, hn, hk]
    · rename_i h0
      rw [ih (n / 10) _ (by omega)]
      simp only [List.foldl_cons, hk]
      congr 1
      omega

theorem toDigitsCore_head (fuel n : Nat) (ds : Str) (h : n < fuel) (hn : n ≠ 0) :
    (Nat.toDigitsCore 10 fuel n ds).head? ≠ some '0' := by
  induction fuel generalizing n ds with
  | zero => omega
  | succ k ih =>
    simp only [Nat.toDigitsCore]
    split
    · rename_i h0
      have hmod : n % 10 = n := Nat.mod_eq_of_lt (by omega)
      intro hh
      simp only [List.head?_cons, Option.some.injEq] at hh
      have := (digitChar_digit (n % 10) (Nat.mod_lt _ (by decide))).2.2 hh
      omega
    · rename_i h0
      exact ih (n / 10) _ (by omega) h0

theorem toDigitsCore_ne_nil (fuel n : Nat) (ds : Str) (h : 0 < fuel) :
    Nat.toDigitsCore 10 fuel n ds ≠ [] := by
  have key : ∀ fuel n (ds : Str), ds ≠ [] → Nat.toDigitsCore 10 fuel n ds ≠ [] := by
    intro fuel
    induction fuel with
    | zero => intro n ds hds; simpa [Nat.toDigitsCore] using hds
    | succ k ih =>
      intro n ds hds
      simp only [Nat.toDigitsCore]
      split
      · simp
      · exact ih _ _ (by simp)
  cases fuel with
  | zero => omega
  | succ k =>
    simp only [Nat.toDigitsCore]
    split
    · simp
    · exact key _ _ _ (by simp)

theorem toDigits_decimal (m : Nat) :
    Nat.toDigits 10 m ≠ [] ∧ (∀ ch ∈ Nat.toDigits 10 m, ch.isDigit = true) ∧
      ((Nat.toDigits 10 m).head? = some '0' → Nat.toDigits 10 m = ['0']) ∧
      decimalValue (Nat.toDigits 10 m) = m := by
  refine ⟨toDigitsCore_ne_nil _ _ _ (by omega), toDigitsCore_digits _ _ _ (by simp), ?_, ?_⟩
  · intro hh
    by_cases hm : m = 0
    · subst hm; rfl
    · exact absurd hh (toDigitsCore_head _ _ _ (by omega) hm)
  · unfold decimalValue Nat.toDigits
    rw [toDigitsCore_value _ _ _ (by omega)]
    rfl

theorem formatInt_isDecimalOf (n : Int) : isDecimalOf (formatInt n) n := by
  cases n with
  | ofNat m =>
    obtain ⟨h1, h2, h3, h4⟩ := toDigits_decimal m
    exact ⟨Nat.toDigits 10 m, by simp [formatInt], h1, h2, h3, by simpa using h4⟩
  | negSucc m =>
    obtain ⟨h1, h2, h3, h4⟩ := toDigits_decimal (m + 1)
    refine ⟨Nat.toDigits 10 (m + 1), ?_, h1, h2, h3, ?_⟩
    · have : Int.negSucc m < 0 := Int.negSucc_lt_zero m
      simp [formatInt, this]
    · rw [h4]; rfl

theorem count_newline_labelLine (key value : Str) (hk : '\n' ∉ key) (hv : '\n' ∉ value) :
    (labelLine key value).count '\n' = 1 := by
  have h1 : key.count '\n' = 0 := List.count_eq_zero.mpr hk
  have h2 : value.count '\n' = 0 := List.count_eq_zero.mpr hv
  simp [labelLine, List.count_append, List.count_cons, h1, h2]

theorem stepLine_eq (key : Str) (o : Option Str) (b : Str) :
    stepLine key o b = b ++ optLine key o := by
  cases o <;> simp [stepLine, optLine]

theorem toPlainText_steps (f : Features) :
    f.toPlainText =
      stepLine "driver-version.revision".toList f.DriverVersionRevision
      (stepLine "driver-version.patch".toList f.DriverVersionPatch
      (stepLine "driver-version.minor".toList f.DriverVersionMinor
      (stepLine "driver-version.major".toList f.DriverVersionMajor
      (stepLine "driver-version.full".toList f.DriverVersionFull
      (stepLine "npu.product".toList f.NPUProduct
      (stepLine "npu.family".toList f.NPUFamily
      (stepLine "npu.count".toList (f.NPUCount.map formatInt)
        (labelLine "npu.present".toList (formatBool f.NPUPresent))))))))) := by
  obtain ⟨p, c, fam, prod, full, maj, mi, pat, rev⟩ := f
  cases c <;> rfl

theorem flatten_filterMap_labelLine (l : List (Str × Option Str)) :
    (l.filterMap (fun kv => kv.2.map (labelLine kv.1))).flatten =
      (l.map (fun kv => optLine kv.1 kv.2)).flatten := by
  induction l with
  | nil => rfl
  | cons kv t ih =>
    obtain ⟨k, o⟩ := kv
    cases o <;> simp [List.filterMap_cons, optLine, ih]

theorem length_filterMap_labelLine (l : List (Str × Option Str)) :
    (l.filterMap (fun kv => kv.2.map (labelLine kv.1))).length =
      (l.filter (fun kv => kv.2.isSome)).length := by
  induction l with
  | nil => rfl
  | cons kv t ih =>
    obtain ⟨k, o⟩ := kv
    cases o <;> simp [List.filterMap_cons, List.filter_cons, ih]

theorem count_newline_optLines (l : List (Str × Option Str))
    (h : ∀ kv ∈ l, '\n' ∉ kv.1 ∧ ∀ x, kv.2 = some x → '\n' ∉ x) :
    ((l.map (fun kv => optLine kv.1 kv.2)).flatten).count '\n' =
      (l.filter (fun kv => kv.2.isSome)).length := by
  induction l with
  | nil => rfl
  | cons kv t ih =>
    have ht := ih (fun q hq => h q (List.mem_cons_of_mem _ hq))
    have hkv := h kv (List.mem_cons_self _ _)
    obtain ⟨k, o⟩ := kv
    cases o with
    | none => simpa [optLine, List.filter_cons] using ht
    | some x =>
      have hx := count_newline_labelLine k x hkv.1 (hkv.2 x rfl)
      have e : optLine k (some x) = labelLine k x := rfl
      simp only [List.map_cons, List.flatten_cons, e, List.count_append, hx, ht,
        List.filter_cons, Option.isSome_some, if_true, List.length_cons]
      omega

theorem presentLine_eq (p : Bool) :
    labelLine "npu.present".toList (formatBool p) =
      (if p then "rebellions.ai/npu.present=true\n".toList
        else "rebellions.ai/npu.present=false\n".toList) := by
  cases p <;> decide

theorem toPlainText_eq_labelLines (f : Features) : f.toPlainText = f.labelLines.flatten := by
  have hfmt : formatInt = decimalText := funext formatInt_eq_decimalText
  rw [toPlainText_steps, hfmt, presentLine_eq]
  simp only [stepLine_eq, Features.labelLines, List.flatten_cons, flatten_filterMap_labelLine,
    Features.optionalAttributes, List.map, List.flatten_nil, List.append_assoc, List.append_nil]

set_option maxRecDepth 8192 in
theorem fullRecord_toPlainText :
    fullRecord.toPlainText =
      ("rebellions.ai/npu.present=true\nrebellions.ai/npu.count=1\n" ++
        "rebellions.ai/npu.family=ATOM\nrebellions.ai/npu.product=RBLN-CA02\n" ++
        "rebellions.ai/driver-version.full=1.2.3\nrebellions.ai/driver-version.major=1\n" ++
        "rebellions.ai/driver-version.minor=2\nrebellions.ai/driver-version.patch=3\n" ++
        "rebellions.ai/driver-version.revision=rc1+build7\n").toList := by
  decide

/-- C6: `toPlainText` emits one line per present attribute and nothing for absent ones.
The output is the concatenation of the line `rebellions.ai/npu.present=true` or
`rebellions.ai/npu.present=false` (always, first) and of `rebellions.ai/<key>=<value>` for
exactly the optional fields that are present, in the order count, family, product,
driver-version.full, .major, .minor, .patch, .revision; the count is written in decimal
notation.  The fresh record gives exactly `rebellions.ai/npu.present=false\n`; the texts
of a record with three optional fields, of a record with all eight, and of a record with
a negative count are spelled out.  When no string value contains a newline the output has
one newline for the `npu.present` line and one for each optional field that is present. -/
theorem toPlainText_one_line_per_present_attribute (f : Features) :
    f.toPlainText = f.labelLines.flatten ∧
    f.labelLines.length = 1 + (f.optionalAttributes.filter (fun kv => kv.2.isSome)).length ∧
    f.labelLines.head? =
      some (if f.NPUPresent then "rebellions.ai/npu.present=true\n".toList
        else "rebellions.ai/npu.present=false\n".toList) ∧
    (∀ n : Int, formatInt n = decimalText n ∧ isDecimalOf (decimalText n) n) ∧
    newFeatures.toPlainText = "rebellions.ai/npu.present=false\n".toList ∧
    (presenceOnly 12 "ATOM".toList "RBLN-CA02".toList).toPlainText =
      ("rebellions.ai/npu.present=true\nrebellions.ai/npu.count=12\n" ++
        "rebellions.ai/npu.family=ATOM\nrebellions.ai/npu.product=RBLN-CA02\n").toList ∧
    fullRecord.toPlainText =
      ("rebellions.ai/npu.present=true\nrebellions.ai/npu.count=1\n" ++
        "rebellions.ai/npu.family=ATOM\nrebellions.ai/npu.product=RBLN-CA02\n" ++
        "rebellions.ai/driver-version.full=1.2.3\nrebellions.ai/driver-version.major=1\n" ++
        "rebellions.ai/driver-version.minor=2\nrebellions.ai/driver-version.patch=3\n" ++
        "rebellions.ai/driver-version.revision=rc1+build7\n").toList ∧
    ({ newFeatures with NPUCount := some (-305) } : Features).toPlainText =
      "rebellions.ai/npu.present=false\nrebellions.ai/npu.count=-305\n".toList ∧
    (f.valuesOnOneLine →
      f.toPlainText.count '\n' =
        1 + (f.optionalAttributes.filter (fun kv => kv.2.isSome)).length) := by
  refine ⟨toPlainText_eq_labelLines f, ?_, rfl, ?_, by decide, by decide,
    fullRecord_toPlainText, by decide, ?_⟩
  · simp only [Features.labelLines, List.length_cons, length_filterMap_labelLine]
    omega
  · intro n
    refine ⟨formatInt_eq_decimalText n, ?_⟩
    rw [← formatInt_eq_decimalText]
    exact formatInt_isDecimalOf n
  · intro h
    rw [toPlainText_eq_labelLines]
    simp only [Features.labelLines, List.flatten_cons, List.count_append,
      flatten_filterMap_labelLine]
    have h0 : (if f.NPUPresent then "rebellions.ai/npu.present=true\n".toList
        else "rebellions.ai/npu.present=false\n".toList).count '\n' = 1 := by
      cases f.NPUPresent <;> decide
    rw [h0, count_newline_optLines]
    intro kv hkv
    simp only [Features.valuesOnOneLine, List.mem_cons, List.mem_singleton, forall_eq_or_imp,
      forall_eq, List.not_mem_nil, false_imp_iff, implies_true, and_true] at h
    obtain ⟨h1, h2, h3, h4, h5, h6, h7⟩ := h
    simp only [Features.optionalAttributes, List.mem_cons, List.mem_singleton,
      List.not_mem_nil, or_false] at hkv
    rcases hkv with rfl | rfl | rfl | rfl | rfl | rfl | rfl | rfl
    · refine ⟨(by decide : '\n' ∉ "npu.count".toList), ?_⟩
      intro x hx
      cases hc : f.NPUCount with
      | none => simp [hc] at hx
      | some n =>
        simp only [hc, Option.map_some', Option.some.injEq] at hx
        subst hx
        rw [← formatInt_eq_decimalText]
        exact formatInt_no_newline n
    · exact ⟨(by decide : '\n' ∉ "npu.family".toList), h1⟩
    · exact ⟨(by decide : '\n' ∉ "npu.product".toList), h2⟩
    · exact ⟨(by decide : '\n' ∉ "driver-version.full".toList), h3⟩
    · exact ⟨(by decide : '\n' ∉ "driver-version.major".toList), h4⟩
    · exact ⟨(by decide : '\n' ∉ "driver-version.minor".toList), h5⟩
    · exact ⟨(by decide : '\n' ∉ "driver-version.patch".toList), h6⟩
    · exact ⟨(by decide : '\n' ∉ "driver-version.revision".toList), h7⟩

/-- C6 at a record with `npuPresent = true`, the count 2, a family and a product: the
four lines, spelled out, through the specification's line list. -/
theorem toPlainText_one_line_per_present_attribute_witness :
    (presenceOnly 2 "ATOM".toList "RBLN-CA02".toList).toPlainText =
        ("rebellions.ai/npu.present=true\nrebellions.ai/npu.count=2\n" ++
          "rebellions.ai/npu.family=ATOM\nrebellions.ai/npu.product=RBLN-CA02\n").toList ∧
      (presenceOnly 2 "ATOM".toList "RBLN-CA02".toList).toPlainText.count '\n' = 4 :=
  ⟨(toPlainText_one_line_per_present_attribute
      (presenceOnly 2 "ATOM".toList "RBLN-CA02".toList)).1.trans (by decide),
    (toPlainText_one_line_per_present_attribute
      (presenceOnly 2 "ATOM".toList "RBLN-CA02".toList)).2.2.2.2.2.2.2.2
      (by simp [Features.valuesOnOneLine, presenceOnly])⟩

/-! ## Lemmas on the collector -/

example : Clean "/a//b/./c/../d/".toList = "/a/b/d".toList := by decide
example : Clean "../a/../../b".toList = "../../b".toList := by decide
example : Clean "/../a".toList = "/a".toList := by decide
example : Dir "/etc/features.d/rbln-features".toList = "/etc/features.d".toList := by decide
example : Dir "rbln-features".toList = ".".toList := by decide
example : Base "/etc/features.d/rbln-features".toList = "rbln-features".toList := by decide
example : Base "//".toList = "/".toList := by decide
example : Join ["/etc/features.d".toList, ".rbln-features".toList] =
    "/etc/features.d/.rbln-features".toList := by decide

example : Clean "a/b/../../..".toList = "..".toList := by decide
example : Clean [] = ".".toList := by decide
example : Clean "/..".toList = "/".toList := by decide
example : tempPath sampleCollector =
    "/etc/kubernetes/node-feature-discovery/features.d/.rbln-features".toList := by decide
example : Atoi "0".toList = some 0 := by decide
example : Atoi "+8".toList = some 8 := by decide
example : Atoi "-0".toList = some 0 := by decide
example : Atoi "8 ".toList = none := by decide
example : Atoi "9223372036854775808".toList = none := by decide
example : (DiscoverDevices worldSysfsOnly).2 =
    [Event.readPciDir, Event.readPciAttr atomEntry.name "vendor".toList,
      Event.readPciAttr atomEntry.name "sriov_numvfs".toList,
      Event.readPciAttr atomEntry.name "device".toList] := by decide


theorem Clean_ne_nil (path : Str) : Clean path ≠ [] := by
  unfold Clean
  lift_lets
  intro rooted out s
  by_cases h : s = [] <;> simp [h]

theorem Dir_ne_nil (path : Str) : Dir path ≠ [] := Clean_ne_nil _

theorem sysfsConsulted_append (a b : List Event) :
    sysfsConsulted (a ++ b) = (sysfsConsulted a || sysfsConsulted b) := by
  simp [sysfsConsulted, List.any_append]

theorem save_not_sysfs (c : FeaturesCollector) (w : World) (features : Features) (fs : Files) :
    sysfsConsulted (save c w features fs).2.2 = false := by
  simp only [save, saveRun, if_neg (Dir_ne_nil c.outputFile)]
  cases w.statDir with
  | some e => rfl
  | none =>
    cases w.writeTemp with
    | failed e left => rfl
    | done => cases w.renameTemp <;> rfl

theorem collectFromDaemon_not_sysfs (w : World) (features : Features) :
    sysfsConsulted (collectFromDaemon w features).2.2 = false := by
  unfold collectFromDaemon
  simp only []
  repeat' split
  all_goals rfl

theorem DiscoverDevices_consults_sysfs (w : World) :
    sysfsConsulted (DiscoverDevices w).2 = true := by
  unfold DiscoverDevices
  split <;> rfl

theorem collectFromSysfs_consults_sysfs (w : World) (features : Features) :
    sysfsConsulted (collectFromSysfs w features).2.2 = true := by
  have h := DiscoverDevices_consults_sysfs w
  unfold collectFromSysfs
  simp only []
  repeat' split
  all_goals simp [sysfsConsulted_append, h]

/-- What `save` does when its three file-system calls succeed. -/
theorem save_of_success (c : FeaturesCollector) (w : World) (features : Features) (fs : Files)
    (hstat : w.statDir = none) (hwrite : w.writeTemp = .done) (hrename : w.renameTemp = none) :
    save c w features fs =
      (none, (fs.write (tempPath c) (saveText c w features)).rename (tempPath c) c.outputFile,
        [Event.statDir (Dir c.outputFile),
         Event.writeFile (tempPath c) (saveText c w features),
         Event.rename (tempPath c) c.outputFile]) := by
  simp [save, saveRun, Dir_ne_nil c.outputFile, hstat, hwrite, hrename]

theorem read_write_self (fs : Files) (path data : Str) :
    (fs.write path data) path = some data := by
  show Files.read _ _ = _
  unfold Files.read Files.write
  cases h : fs.node path with
  | none => simp
  | some i => simp [h]

theorem node_write_self (fs : Files) (path data : Str) :
    ∃ i, (fs.write path data).node path = some i ∧ (fs.write path data).data i = data := by
  unfold Files.write
  cases h : fs.node path with
  | none => exact ⟨fs.next, by simp, by simp⟩
  | some i => exact ⟨i, by simp [h], by simp⟩

theorem rename_write_target (fs : Files) (tmp target data : Str) :
    ((fs.write tmp data).rename tmp target) target = some data := by
  obtain ⟨i, hnode, hdata⟩ := node_write_self fs tmp data
  show Files.read _ _ = _
  unfold Files.read Files.rename
  by_cases hsame : (fs.write tmp data).node target = (fs.write tmp data).node tmp
  · simp [hsame, hnode, hdata]
  · have hcond : ¬ ((fs.write tmp data).node tmp = none ∨
        (fs.write tmp data).node target = (fs.write tmp data).node tmp) := by
      rw [hnode] at hsame ⊢
      simp [hsame]
    rw [if_neg hcond]
    simp [hnode, hdata]

/-- The sysfs events of a run are those of its collection part: sysfs was consulted if and
only if the daemon attempt returned an error. -/
theorem CollectOnce_sysfsConsulted (c : FeaturesCollector) (w : World) (fs : Files) :
    sysfsConsulted (CollectOnce c w fs).2.2 =
      (collectFromDaemon w newFeatures).1.isSome := by
  have hd := collectFromDaemon_not_sysfs w newFeatures
  have hs := collectFromSysfs_consults_sysfs w (collectFromDaemon w newFeatures).2.1
  have hsave := fun f => save_not_sysfs c w f fs
  unfold CollectOnce collectFeatures
  cases h : (collectFromDaemon w newFeatures).1 with
  | none =>
    simp only [h]
    split <;> simp [sysfsConsulted_append, hd, hsave]
  | some e =>
    simp only [h]
    cases h2 : (collectFromSysfs w (collectFromDaemon w newFeatures).2.1).1 with
    | some e2 => simp [sysfsConsulted_append, hd, hs]
    | none =>
      simp only []
      split <;> simp [sysfsConsulted_append, hd, hs, hsave]

/-- `CollectOnce` after a collection that succeeded, when the publish step succeeds. -/
theorem CollectOnce_of_success (c : FeaturesCollector) (w : World) (fs : Files)
    (features : Features) (events : List Event)
    (hcollect : collectFeatures w = (none, features, events))
    (hstat : w.statDir = none) (hwrite : w.writeTemp = .done) (hrename : w.renameTemp = none) :
    (CollectOnce c w fs).1 = none ∧
      (CollectOnce c w fs).2.1 c.outputFile = some (saveText c w features) := by
  simp only [CollectOnce, hcollect, save_of_success c w features fs hstat hwrite hrename,
    rename_write_target, and_self]

/-- Every product code of the catalog starts with `CA`. -/
theorem catalog_family {id : Str} {p : DeviceProduct} (h : productFromDeviceID id = .ok p) :
    DeviceProduct.Family p = .ok DeviceFamilyATOM := by
  have hmem : (id, p) ∈ deviceProductMap := by
    unfold productFromDeviceID at h
    cases hl : deviceProductMap.lookup id with
    | none => rw [hl] at h; cases h
    | some q =>
      rw [hl] at h
      cases h
      exact mem_of_lookup hl
  simp only [deviceProductMap, List.mem_cons, Prod.mk.injEq, List.mem_singleton,
    List.not_mem_nil, or_false] at hmem
  rcases hmem with ⟨-, rfl⟩ | ⟨-, rfl⟩ | ⟨-, rfl⟩ | ⟨-, rfl⟩ | ⟨-, rfl⟩ | ⟨-, rfl⟩ |
    ⟨-, rfl⟩ | ⟨-, rfl⟩ <;> rfl

/-- The version step of the sysfs path when the kernel-version file does not exist. -/
theorem collectVersionFromSysfs_notExist (w : World) (features : Features)
    (hver : w.kernelVersionStat = .notExist) :
    collectVersionFromSysfs w features = (none, features, [Event.statKernelVersion]) := by
  simp [collectVersionFromSysfs, ReadDriverVersion, hver]

/-! ## The collection policy (C7-C10) -/

/-- C7: when the daemon connection succeeds and the list of serviceable devices is empty,
the collection succeeds with the fresh record, the run does not consult sysfs, and,
given that the three file-system calls of the publish step succeed, `CollectOnce`
succeeds and the output file holds the text of the fresh record: with the expiry line
switched off exactly the one line `rebellions.ai/npu.present=false`. -/
theorem CollectOnce_empty_device_list (c : FeaturesCollector) (w : World) (fs : Files)
    (hdial : w.dial = none) (hlist : w.serviceableDevices = .ok []) :
    collectFeatures w =
      (none, newFeatures, [Event.dial, Event.serviceableDevices, Event.close]) ∧
    sysfsConsulted (CollectOnce c w fs).2.2 = false ∧
    (w.statDir = none → w.writeTemp = .done → w.renameTemp = none →
      (CollectOnce c w fs).1 = none ∧
      (CollectOnce c w fs).2.1 c.outputFile = some (saveText c w newFeatures) ∧
      (c.noTimestamp = true →
        (CollectOnce c w fs).2.1 c.outputFile =
          some "rebellions.ai/npu.present=false\n".toList)) := by
  have hd : collectFromDaemon w newFeatures =
      (none, newFeatures, [Event.dial, Event.serviceableDevices, Event.close]) := by
    simp only [collectFromDaemon, hdial, hlist]
  have hc : collectFeatures w =
      (none, newFeatures, [Event.dial, Event.serviceableDevices, Event.close]) := by
    simp only [collectFeatures, hd]
  refine ⟨hc, ?_, ?_⟩
  · rw [CollectOnce_sysfsConsulted, hd]
    rfl
  · intro hstat hwrite hrename
    obtain ⟨h1, h2⟩ := CollectOnce_of_success c w fs _ _ hc hstat hwrite hrename
    refine ⟨h1, h2, ?_⟩
    intro hts
    rw [h2]
    simp only [saveText, hts, not_true_eq_false, if_false]
    rfl

/-- C7 at `worldNoDevices`: the run succeeds and publishes the single line. -/
theorem CollectOnce_empty_device_list_witness :
    worldNoDevices.dial = none ∧ worldNoDevices.serviceableDevices = .ok [] ∧
      (CollectOnce sampleCollector worldNoDevices noFiles).1 = none ∧
      (CollectOnce sampleCollector worldNoDevices noFiles).2.1 sampleCollector.outputFile =
        some "rebellions.ai/npu.present=false\n".toList ∧
      sysfsConsulted (CollectOnce sampleCollector worldNoDevices noFiles).2.2 = false :=
  have h := CollectOnce_empty_device_list sampleCollector worldNoDevices noFiles rfl rfl
  ⟨rfl, rfl, (h.2.2 rfl rfl rfl).1, (h.2.2 rfl rfl rfl).2.2 rfl, h.2.1⟩

/-- C8, as stated, fails where the publish step fails: at `worldSysfsOnlyNoDir` the daemon
is unreachable, the scan finds the one device `1020`, there is no driver-version file,
and `CollectOnce` returns the error of `save` and publishes nothing. -/
theorem CollectOnce_sysfs_fallback_publish_failure :
    worldSysfsOnlyNoDir.dial ≠ none ∧
      (DiscoverDevices worldSysfsOnlyNoDir).1 = .ok [{ DeviceID := "1020".toList }] ∧
      productFromDeviceID "1020".toList = .ok "CA02".toList ∧
      (ReadDriverVersion worldSysfsOnlyNoDir).1.found = false ∧
      (ReadDriverVersion worldSysfsOnlyNoDir).1.err = none ∧
      (CollectOnce sampleCollector worldSysfsOnlyNoDir noFiles).1 =
        some (Err.wrap "saving features".toList
          (Err.wrap "output path validation failed".toList
            (Err.external "no such file or directory".toList))) ∧
      (CollectOnce sampleCollector worldSysfsOnlyNoDir noFiles).2.1 sampleCollector.outputFile =
        none := by
  refine ⟨by decide, rfl, rfl, rfl, rfl, ?_, ?_⟩
  · decide
  · decide

/-- C8, amended: when the daemon is unreachable, the sysfs scan returns a non-empty device
list whose first identifier is in the catalog, and the driver-version file does not
exist, the collection succeeds with `npuPresent = true`, `npuCount` the number of devices
found, `npuProduct = "RBLN-" ++ code`, `npuFamily` the family of the code, and no
driver-version field; given that the publish step succeeds, `CollectOnce` succeeds and
the output file holds the text of that record.  For the single device `1020` the label
lines are exactly those of `present=true`, `count=1`, `family=ATOM`, `product=RBLN-CA02`. -/
theorem CollectOnce_sysfs_fallback_no_driver_version (c : FeaturesCollector) (w : World)
    (fs : Files) (e : Err) (d : Device) (ds : List Device) (p : DeviceProduct)
    (hdial : w.dial = some e) (hscan : (DiscoverDevices w).1 = .ok (d :: ds))
    (hprod : productFromDeviceID d.DeviceID = .ok p)
    (hver : w.kernelVersionStat = .notExist)
    (hstat : w.statDir = none) (hwrite : w.writeTemp = .done) (hrename : w.renameTemp = none) :
    (CollectOnce c w fs).1 = none ∧
    (collectFeatures w).1 = none ∧
    (collectFeatures w).2.1 =
      presenceOnly ((d :: ds).length : Int) "ATOM".toList ("RBLN-".toList ++ p) ∧
    DeviceProduct.Family p = .ok "ATOM".toList ∧
    (CollectOnce c w fs).2.1 c.outputFile = some (saveText c w (collectFeatures w).2.1) ∧
    (c.noTimestamp = true →
      saveText c w (collectFeatures w).2.1 = (collectFeatures w).2.1.toPlainText) ∧
    (d.DeviceID = "1020".toList → ds = [] →
      (collectFeatures w).2.1.toPlainText =
        ("rebellions.ai/npu.present=true\nrebellions.ai/npu.count=1\n" ++
          "rebellions.ai/npu.family=ATOM\nrebellions.ai/npu.product=RBLN-CA02\n").toList) := by
  have hfam : DeviceProduct.Family p = .ok DeviceFamilyATOM := catalog_family hprod
  have hd : collectFromDaemon w newFeatures = (some e, newFeatures, [Event.dial]) := by
    simp only [collectFromDaemon, hdial]
  have hs : collectFromSysfs w newFeatures =
      (none,
        presenceOnly ((d :: ds).length : Int) "ATOM".toList ("RBLN-".toList ++ p),
        (DiscoverDevices w).2 ++ [Event.statKernelVersion]) := by
    simp only [collectFromSysfs, hscan, hprod, hfam, collectVersionFromSysfs_notExist _ _ hver]
    rfl
  have hc : collectFeatures w =
      (none, presenceOnly ((d :: ds).length : Int) "ATOM".toList ("RBLN-".toList ++ p),
        [Event.dial] ++ ((DiscoverDevices w).2 ++ [Event.statKernelVersion])) := by
    simp only [collectFeatures, hd, hs]
  obtain ⟨h1, h2⟩ := CollectOnce_of_success c w fs _ _ hc hstat hwrite hrename
  refine ⟨h1, by rw [hc], by rw [hc], hfam, by rw [h2, hc], ?_, ?_⟩
  · intro hts
    simp only [saveText, hts, not_true_eq_false, if_false]
  · intro hid hds
    have hp : p = "CA02".toList := by
      rw [hid] at hprod
      cases hprod
      rfl
    rw [hc, hds, hp]
    show (presenceOnly 1 "ATOM".toList ("RBLN-".toList ++ "CA02".toList)).toPlainText = _
    decide

/-- C8 at `worldSysfsOnly`: one device `1020`, no driver, the four label lines. -/
theorem CollectOnce_sysfs_fallback_no_driver_version_witness :
    (CollectOnce sampleCollector worldSysfsOnly noFiles).1 = none ∧
      (CollectOnce sampleCollector worldSysfsOnly noFiles).2.1 sampleCollector.outputFile =
        some ("rebellions.ai/npu.present=true\nrebellions.ai/npu.count=1\n" ++
          "rebellions.ai/npu.family=ATOM\nrebellions.ai/npu.product=RBLN-CA02\n").toList :=
  have h := CollectOnce_sysfs_fallback_no_driver_version sampleCollector worldSysfsOnly noFiles
    (Err.external "failed to dial rbln-daemon".toList) { DeviceID := "1020".toList } []
    "CA02".toList rfl rfl rfl rfl rfl rfl rfl
  ⟨h.1, by rw [h.2.2.2.2.1, h.2.2.2.2.2.1 rfl, h.2.2.2.2.2.2 rfl rfl]⟩

/-- C9: partial success on the daemon path is a terminal outcome.  When the daemon returns
a non-empty device list whose first identifier resolves to a product and a family, and the
version request for the first device fails, the daemon attempt returns no error, the run
does not consult sysfs, and the record handed to `save` has `npuPresent = true`,
`npuCount` the length of the list, product and family set, and all five driver-version
fields absent. -/
theorem collectFromDaemon_partial_success (c : FeaturesCollector) (w : World) (fs : Files)
    (d : Str) (ds : List Str) (p : DeviceProduct) (family : Str) (e : Err)
    (hdial : w.dial = none) (hlist : w.serviceableDevices = .ok (d :: ds))
    (hprod : productFromDeviceID d = .ok p) (hfam : DeviceProduct.Family p = .ok family)
    (hver : w.version = .error e) :
    (collectFromDaemon w newFeatures).1 = none ∧
    sysfsConsulted (CollectOnce c w fs).2.2 = false ∧
    collectFeatures w =
      (none, presenceOnly ((d :: ds).length : Int) family (DeviceProduct.FeatureString p),
        [Event.dial, Event.serviceableDevices, Event.version d, Event.close]) ∧
    (w.statDir = none → w.writeTemp = .done → w.renameTemp = none →
      (CollectOnce c w fs).1 = none ∧
      (CollectOnce c w fs).2.1 c.outputFile =
        some (saveText c w
          (presenceOnly ((d :: ds).length : Int) family (DeviceProduct.FeatureString p)))) := by
  have hd : collectFromDaemon w newFeatures =
      (none, presenceOnly ((d :: ds).length : Int) family (DeviceProduct.FeatureString p),
        [Event.dial, Event.serviceableDevices, Event.version d, Event.close]) := by
    simp only [collectFromDaemon, hdial, hlist, hprod, hfam, hver]
    rfl
  have hc : collectFeatures w =
      (none, presenceOnly ((d :: ds).length : Int) family (DeviceProduct.FeatureString p),
        [Event.dial, Event.serviceableDevices, Event.version d, Event.close]) := by
    simp only [collectFeatures, hd]
  refine ⟨by rw [hd], ?_, hc, ?_⟩
  · rw [CollectOnce_sysfsConsulted, hd]
    rfl
  · intro hstat hwrite hrename
    exact CollectOnce_of_success c w fs _ _ hc hstat hwrite hrename

/-- C9 at `worldDaemonNoVersion`: sysfs would have answered, and is not asked. -/
theorem collectFromDaemon_partial_success_witness :
    sysfsConsulted (CollectOnce sampleCollector worldDaemonNoVersion noFiles).2.2 = false ∧
      (collectFeatures worldDaemonNoVersion).2.1 =
        presenceOnly 1 "ATOM".toList "RBLN-CA02".toList ∧
      (CollectOnce sampleCollector worldDaemonNoVersion noFiles).1 = none :=
  have h := collectFromDaemon_partial_success sampleCollector worldDaemonNoVersion noFiles
    "1020".toList [] "CA02".toList "ATOM".toList
    (Err.external "failed to GetVersion RPC".toList) rfl rfl rfl rfl rfl
  ⟨h.2.1, by rw [h.2.2.1]; rfl, (h.2.2.2 rfl rfl rfl).1⟩

/-- C10, as stated, fails for a version string of the daemon that does not parse: at
`worldDaemonMalformedVersion` the daemon connects, lists the device `1020`, which has a
product and a family, and reports the version `1.2`; the daemon attempt returns the parse
error, the run consults sysfs, and `CollectOnce` succeeds and publishes a file, so the
parse error is not surfaced. -/
theorem malformed_daemon_version_falls_back_to_sysfs :
    worldDaemonMalformedVersion.dial = none ∧
      worldDaemonMalformedVersion.serviceableDevices = .ok ["1020".toList] ∧
      productFromDeviceID "1020".toList = .ok "CA02".toList ∧
      DeviceProduct.Family "CA02".toList = .ok "ATOM".toList ∧
      worldDaemonMalformedVersion.version = .ok "1.2".toList ∧
      (collectFromDaemon worldDaemonMalformedVersion newFeatures).1 =
        some (Err.splitSemver "1.2".toList) ∧
      sysfsConsulted
        (CollectOnce sampleCollector worldDaemonMalformedVersion noFiles).2.2 = true ∧
      (CollectOnce sampleCollector worldDaemonMalformedVersion noFiles).1 = none ∧
      (CollectOnce sampleCollector worldDaemonMalformedVersion noFiles).2.1
          sampleCollector.outputFile =
        some ("rebellions.ai/npu.present=true\nrebellions.ai/npu.count=1\n" ++
          "rebellions.ai/npu.family=ATOM\nrebellions.ai/npu.product=RBLN-CA02\n").toList := by
  refine ⟨rfl, rfl, rfl, rfl, rfl, ?_, ?_, ?_, ?_⟩ <;> decide

/-- C10, amended: `CollectOnce` runs the sysfs path if and only if the daemon attempt
returned an error, and that is the case exactly for a connection error, a device-list
error, an unknown identifier or family of the first device, or a version string of the
daemon that does not parse.  It is not run when the daemon attempt succeeded, with zero,
partial or full data.  After any failed daemon attempt, the parse failure included, the
run succeeds whenever the sysfs attempt and the publish step do. -/
theorem sysfs_fallback_iff_daemon_attempt_failed (c : FeaturesCollector) (w : World)
    (fs : Files) :
    (sysfsConsulted (CollectOnce c w fs).2.2 = true ↔
      (collectFromDaemon w newFeatures).1 ≠ none) ∧
    ((collectFromDaemon w newFeatures).1 ≠ none ↔
      (w.dial ≠ none ∨
       (w.dial = none ∧ ∃ err, w.serviceableDevices = .error err) ∨
       (w.dial = none ∧ ∃ d ds, w.serviceableDevices = .ok (d :: ds) ∧
          ((∃ err, productFromDeviceID d = .error err) ∨
           (∃ p err, productFromDeviceID d = .ok p ∧ DeviceProduct.Family p = .error err) ∨
           (∃ p family v, productFromDeviceID d = .ok p ∧
              DeviceProduct.Family p = .ok family ∧ w.version = .ok v ∧
              (parseDriverVersion v).err ≠ none))))) ∧
    ((collectFromDaemon w newFeatures).1 ≠ none →
      (collectFromSysfs w (collectFromDaemon w newFeatures).2.1).1 = none →
      w.statDir = none → w.writeTemp = .done → w.renameTemp = none →
      (CollectOnce c w fs).1 = none) := by
  refine ⟨?_, ?_, ?_⟩
  · rw [CollectOnce_sysfsConsulted]
    cases (collectFromDaemon w newFeatures).1 <;> simp
  · cases h1 : w.dial with
    | some e => simp [collectFromDaemon, h1]
    | none =>
      cases h2 : w.serviceableDevices with
      | error e => simp [collectFromDaemon, h1, h2]
      | ok devices =>
        cases devices with
        | nil => simp [collectFromDaemon, h1, h2]
        | cons d ds =>
          cases h3 : productFromDeviceID d with
          | error e => simp [collectFromDaemon, h1, h2, h3]
          | ok p =>
            cases h4 : DeviceProduct.Family p with
            | error e => simp [collectFromDaemon, h1, h2, h3, h4]
            | ok family =>
              cases h5 : w.version with
              | error e => simp [collectFromDaemon, h1, h2, h3, h4, h5]
              | ok v =>
                cases h6 : (parseDriverVersion v).err with
                | none => simp [collectFromDaemon, h1, h2, h3, h4, h5, h6]
                | some e => simp [collectFromDaemon, h1, h2, h3, h4, h5, h6]
  · intro hfail hsys hstat hwrite hrename
    cases hd : (collectFromDaemon w newFeatures).1 with
    | none => exact absurd hd hfail
    | some e =>
      have hc : collectFeatures w =
          (none, (collectFromSysfs w (collectFromDaemon w newFeatures).2.1).2.1,
            (collectFromDaemon w newFeatures).2.2 ++
              (collectFromSysfs w (collectFromDaemon w newFeatures).2.1).2.2) := by
        simp only [collectFeatures, hd, hsys]
      exact (CollectOnce_of_success c w fs _ _ hc hstat hwrite hrename).1

/-- C10, amended, at `worldDaemonMalformedVersion`: the parse failure of the daemon's
version string sends the run to sysfs. -/
theorem sysfs_fallback_iff_daemon_attempt_failed_witness :
    sysfsConsulted (CollectOnce sampleCollector worldDaemonMalformedVersion noFiles).2.2 =
      true :=
  (sysfs_fallback_iff_daemon_attempt_failed sampleCollector worldDaemonMalformedVersion
    noFiles).1.mpr (by decide)

/-! ## Failure of both attempts (C11) -/

theorem publishAttempted_append (a b : List Event) :
    publishAttempted (a ++ b) = (publishAttempted a || publishAttempted b) := by
  simp [publishAttempted, List.any_append]

theorem publishAttempted_cons (e : Event) (l : List Event) :
    publishAttempted (e :: l) = (e.isPublish || publishAttempted l) := by
  simp [publishAttempted]

theorem publishAttempted_nil : publishAttempted [] = false := rfl

theorem discoverLoop_not_publish (entries : List PciEntry) (devices : List Device) :
    publishAttempted (discoverLoop entries devices).2 = false := by
  induction entries generalizing devices with
  | nil => rfl
  | cons entry rest ih =>
    unfold discoverLoop
    simp only []
    repeat' split
    all_goals simp [publishAttempted_cons, publishAttempted_nil, Event.isPublish, ih]

theorem DiscoverDevices_not_publish (w : World) :
    publishAttempted (DiscoverDevices w).2 = false := by
  unfold DiscoverDevices
  split
  · rfl
  · simp [publishAttempted_cons, Event.isPublish, discoverLoop_not_publish]

theorem collectFromDaemon_not_publish (w : World) (features : Features) :
    publishAttempted (collectFromDaemon w features).2.2 = false := by
  unfold collectFromDaemon
  simp only []
  repeat' split
  all_goals rfl

theorem collectVersionFromSysfs_not_publish (w : World) (features : Features) :
    publishAttempted (collectVersionFromSysfs w features).2.2 = false := by
  unfold collectVersionFromSysfs ReadDriverVersion
  simp only []
  repeat' split
  all_goals rfl

theorem collectFromSysfs_not_publish (w : World) (features : Features) :
    publishAttempted (collectFromSysfs w features).2.2 = false := by
  have h := DiscoverDevices_not_publish w
  have hv := fun f => collectVersionFromSysfs_not_publish w f
  unfold collectFromSysfs
  simp only []
  repeat' split
  all_goals simp [publishAttempted_append, h, hv]

theorem collectVersionFromSysfs_err (w : World) (features : Features) :
    (collectVersionFromSysfs w features).1 ≠ none ↔ versionStepFails w := by
  unfold versionStepFails
  cases h1 : w.kernelVersionStat with
  | notExist => simp [collectVersionFromSysfs, ReadDriverVersion, h1]
  | failed e => simp [collectVersionFromSysfs, ReadDriverVersion, h1]
  | found =>
    cases h2 : w.kernelVersionRead with
    | error e => simp [collectVersionFromSysfs, ReadDriverVersion, h1, h2]
    | ok bytes =>
      cases h3 : (parseDriverVersion (TrimSpace bytes)).err with
      | none => simp [collectVersionFromSysfs, ReadDriverVersion, h1, h2, h3]
      | some e => simp [collectVersionFromSysfs, ReadDriverVersion, h1, h2, h3]

/-- When the sysfs attempt returns an error, whatever record it started from. -/
theorem collectFromSysfs_err (w : World) (features : Features) :
    (collectFromSysfs w features).1 ≠ none ↔
      ((∃ err, (DiscoverDevices w).1 = .error err) ∨
        (∃ d ds, (DiscoverDevices w).1 = .ok (d :: ds) ∧
          ((∃ err, productFromDeviceID d.DeviceID = .error err) ∨
            ∃ p err, productFromDeviceID d.DeviceID = .ok p ∧
              DeviceProduct.Family p = .error err)) ∨
        (scanAccepted w ∧ versionStepFails w)) := by
  unfold scanAccepted
  cases h1 : (DiscoverDevices w).1 with
  | error e => simp [collectFromSysfs, h1]
  | ok devices =>
    cases devices with
    | nil =>
      have hv := collectVersionFromSysfs_err w features
      simp only [collectFromSysfs, h1]
      simpa using hv
    | cons d ds =>
      cases h2 : productFromDeviceID d.DeviceID with
      | error e => simp [collectFromSysfs, h1, h2]
      | ok p =>
        cases h3 : DeviceProduct.Family p with
        | error e => simp [collectFromSysfs, h1, h2, h3]
        | ok family =>
          simp only [collectFromSysfs, h1, h2, h3]
          rw [collectVersionFromSysfs_err]
          simp [h2, h3]

/-- C11: when the daemon attempt fails and the sysfs attempt also returns an error,
`CollectOnce` returns that error (wrapped) and performs no publish step: the run records
no `os.Stat`, `os.WriteFile` or `os.Rename` of `save`, and the files are what they were.
The sysfs attempt returns an error exactly when the device scan fails, the first
discovered identifier is not in the catalog or has no family, or, the device part having
gone through, the driver-version file cannot be checked or read or its content is
malformed. -/
theorem CollectOnce_fails_without_publish (c : FeaturesCollector) (w : World) (fs : Files)
    (hdaemon : (collectFromDaemon w newFeatures).1 ≠ none)
    (hsysfs : (collectFromSysfs w (collectFromDaemon w newFeatures).2.1).1 ≠ none) :
    (∃ err, (collectFromSysfs w (collectFromDaemon w newFeatures).2.1).1 = some err ∧
      (CollectOnce c w fs).1 =
        some (Err.wrap "collecting features from sysfs".toList err)) ∧
    (CollectOnce c w fs).2.1 = fs ∧
    publishAttempted (CollectOnce c w fs).2.2 = false ∧
    (∀ features, (collectFromSysfs w features).1 ≠ none ↔
      ((∃ err, (DiscoverDevices w).1 = .error err) ∨
        (∃ d ds, (DiscoverDevices w).1 = .ok (d :: ds) ∧
          ((∃ err, productFromDeviceID d.DeviceID = .error err) ∨
            ∃ p err, productFromDeviceID d.DeviceID = .ok p ∧
              DeviceProduct.Family p = .error err)) ∨
        (scanAccepted w ∧ versionStepFails w))) := by
  have hpd := collectFromDaemon_not_publish w newFeatures
  have hps := collectFromSysfs_not_publish w (collectFromDaemon w newFeatures).2.1
  cases hd : (collectFromDaemon w newFeatures).1 with
  | none => exact absurd hd hdaemon
  | some e1 =>
    cases hs : (collectFromSysfs w (collectFromDaemon w newFeatures).2.1).1 with
    | none => exact absurd hs hsysfs
    | some e2 =>
      refine ⟨⟨e2, rfl, ?_⟩, ?_, ?_, fun f => collectFromSysfs_err w f⟩
      · simp only [CollectOnce, collectFeatures, hd, hs]
      · simp only [CollectOnce, collectFeatures, hd, hs]
      · simp only [CollectOnce, collectFeatures, hd, hs, publishAttempted_append, hpd, hps,
          Bool.or_self]

/-- C11 at `worldBothFail`: the label file of the earlier cycle stays as it was. -/
theorem CollectOnce_fails_without_publish_witness :
    (CollectOnce sampleCollector worldBothFail previousFiles).1 =
        some (Err.wrap "collecting features from sysfs".toList
          (Err.external "permission denied".toList)) ∧
      (CollectOnce sampleCollector worldBothFail previousFiles).2.1 = previousFiles ∧
      publishAttempted (CollectOnce sampleCollector worldBothFail previousFiles).2.2 = false :=
  have h := CollectOnce_fails_without_publish sampleCollector worldBothFail previousFiles
    (by decide) (by decide)
  ⟨by decide, h.2.1, h.2.2.1⟩

/-! ## The record after a failed daemon attempt (C12, C18) -/

/-- C12 does not hold at `worldDaemonUnknownDevice`: the daemon attempt sets `npuPresent`
and `npuCount` and then fails on the unknown identifier `9999`; the sysfs attempt finds no
device and leaves the record as it is; `CollectOnce` publishes a record with
`npuPresent = true` and a count, and without product and family. -/
theorem presence_fields_after_failed_daemon_attempt :
    (collectFromDaemon worldDaemonUnknownDevice newFeatures).1 =
        some (Err.unknownDeviceID "9999".toList) ∧
      (DiscoverDevices worldDaemonUnknownDevice).1 = .ok [] ∧
      (collectFeatures worldDaemonUnknownDevice).1 = none ∧
      (collectFeatures worldDaemonUnknownDevice).2.1 =
        { NPUPresent := true, NPUCount := some 1, NPUFamily := none, NPUProduct := none,
          DriverVersionFull := none, DriverVersionMajor := none, DriverVersionMinor := none,
          DriverVersionPatch := none, DriverVersionRevision := none } ∧
      (CollectOnce sampleCollector worldDaemonUnknownDevice noFiles).1 = none ∧
      (CollectOnce sampleCollector worldDaemonUnknownDevice noFiles).2.1
          sampleCollector.outputFile =
        some "rebellions.ai/npu.present=true\nrebellions.ai/npu.count=1\n".toList := by
  refine ⟨?_, rfl, ?_, ?_, ?_, ?_⟩ <;> decide

/-- C18 does not hold at `worldDaemonMalformedVersion` and `worldDaemonUnknownDevice`: in
both the daemon attempt fails after the device list was obtained and the sysfs attempt
succeeds without finding a device.  The sysfs path alone, from the fresh record, gives
the fresh record; the record handed to `save` has `npuPresent = true` and the count (and,
in the first world, product and family) of the daemon, and differs between the two
worlds, which differ in the daemon's answers only. -/
theorem failed_daemon_attempt_stays_in_record :
    (collectFromDaemon worldDaemonMalformedVersion newFeatures).1 =
        some (Err.splitSemver "1.2".toList) ∧
      (collectFromDaemon worldDaemonUnknownDevice newFeatures).1 =
        some (Err.unknownDeviceID "9999".toList) ∧
      (DiscoverDevices worldDaemonMalformedVersion).1 = .ok [] ∧
      (DiscoverDevices worldDaemonUnknownDevice).1 = .ok [] ∧
      (collectFromSysfs worldDaemonMalformedVersion newFeatures).1 = none ∧
      (collectFromSysfs worldDaemonMalformedVersion newFeatures).2.1 = newFeatures ∧
      (collectFromSysfs worldDaemonUnknownDevice newFeatures).1 = none ∧
      (collectFromSysfs worldDaemonUnknownDevice newFeatures).2.1 = newFeatures ∧
      (collectFeatures worldDaemonMalformedVersion).1 = none ∧
      (collectFeatures worldDaemonMalformedVersion).2.1 =
        presenceOnly 1 "ATOM".toList "RBLN-CA02".toList ∧
      (collectFeatures worldDaemonUnknownDevice).1 = none ∧
      (collectFeatures worldDaemonUnknownDevice).2.1 =
        { newFeatures with NPUPresent := true, NPUCount := some 1 } := by
  refine ⟨?_, ?_, rfl, rfl, ?_, ?_, ?_, ?_, ?_, ?_, ?_, ?_⟩ <;> decide

/-! ## The catalog and the families (C19) -/

/-- C19: every product code of the catalog has a recognised family.  Whenever
`productFromDeviceID` succeeds, `Family` of its result succeeds with `"ATOM"`, so no
identifier leads to the unknown-family error.  On both collection paths, once the device
list is there and not empty, the attempt therefore ends with no error, with the
unknown-identifier error of the first device, or with the outcome of the version step. -/
theorem catalog_products_have_family :
    (∀ id p, productFromDeviceID id = .ok p → DeviceProduct.Family p = .ok "ATOM".toList) ∧
    (¬ ∃ id p err, productFromDeviceID id = .ok p ∧ DeviceProduct.Family p = .error err) ∧
    (∀ (w : World) (features : Features) (d : Str) (ds : List Str),
      w.dial = none → w.serviceableDevices = .ok (d :: ds) →
      (collectFromDaemon w features).1 = none ∨
        (collectFromDaemon w features).1 = some (Err.unknownDeviceID d) ∨
        ∃ v, w.version = .ok v ∧ (collectFromDaemon w features).1 = (parseDriverVersion v).err) ∧
    (∀ (w : World) (features : Features) (d : Device) (ds : List Device),
      (DiscoverDevices w).1 = .ok (d :: ds) →
      (collectFromSysfs w features).1 = some (Err.unknownDeviceID d.DeviceID) ∨
        ∃ g, (collectFromSysfs w features).1 = (collectVersionFromSysfs w g).1) := by
  refine ⟨fun id p h => catalog_family h, ?_, ?_, ?_⟩
  · rintro ⟨id, p, err, hp, hf⟩
    rw [catalog_family hp] at hf
    cases hf
  · intro w features d ds hdial hlist
    cases hp : productFromDeviceID d with
    | error e =>
      have he : e = Err.unknownDeviceID d := by
        unfold productFromDeviceID at hp
        split at hp <;> cases hp
        rfl
      right; left
      simp only [collectFromDaemon, hdial, hlist, hp, he]
    | ok p =>
      have hf := catalog_family hp
      cases hv : w.version with
      | error e =>
        left
        simp only [collectFromDaemon, hdial, hlist, hp, hf, hv]
      | ok v =>
        right; right
        refine ⟨v, rfl, ?_⟩
        simp only [collectFromDaemon, hdial, hlist, hp, hf, hv]
        cases (parseDriverVersion v).err <;> rfl
  · intro w features d ds hscan
    cases hp : productFromDeviceID d.DeviceID with
    | error e =>
      have he : e = Err.unknownDeviceID d.DeviceID := by
        unfold productFromDeviceID at hp
        split at hp <;> cases hp
        rfl
      left
      simp only [collectFromSysfs, hscan, hp, he]
    | ok p =>
      have hf := catalog_family hp
      right
      simp only [collectFromSysfs, hscan, hp, hf]
      exact ⟨_, rfl⟩

/-- C19 at the identifier `1250`. -/
theorem catalog_products_have_family_witness :
    DeviceProduct.Family "CA25".toList = .ok "ATOM".toList :=
  catalog_products_have_family.1 "1250".toList "CA25".toList rfl

/-! ## The device scan (C17) -/

theorem discoverLoop_filter (entries : List PciEntry) (devices : List Device)
    (hvendor : ∀ e ∈ entries, ∃ v, e.vendor = .ok v)
    (hdevice : ∀ e ∈ entries, e.serviceable = true → ∃ b, e.device = .ok b) :
    (discoverLoop entries devices).1 =
      .ok (devices ++
        (entries.filter PciEntry.serviceable).map (fun e => { DeviceID := e.identifier })) := by
  induction entries generalizing devices with
  | nil => simp [discoverLoop]
  | cons entry rest ih =>
    have ihr := fun acc => ih acc (fun e he => hvendor e (List.mem_cons_of_mem _ he))
      (fun e he => hdevice e (List.mem_cons_of_mem _ he))
    obtain ⟨v, hv⟩ := hvendor entry (List.mem_cons_self _ _)
    by_cases hven : TrimSpace v = rblnVendorID
    · cases hs : entry.sriov_numvfs with
      | error err =>
        have hserv : entry.serviceable = true := by simp [PciEntry.serviceable, hv, hven, hs]
        obtain ⟨b, hb⟩ := hdevice entry (List.mem_cons_self _ _) hserv
        simp [discoverLoop, hv, hven, hs, hb, ihr, List.filter_cons, hserv,
          PciEntry.identifier]
      | ok data =>
        cases ha : Atoi (TrimSpace data) with
        | none =>
          have hserv : entry.serviceable = true := by
            simp [PciEntry.serviceable, hv, hven, hs, ha]
          obtain ⟨b, hb⟩ := hdevice entry (List.mem_cons_self _ _) hserv
          simp [discoverLoop, hv, hven, hs, ha, hb, ihr, List.filter_cons, hserv,
            PciEntry.identifier]
        | some n =>
          by_cases hn : n = 0
          · have hserv : entry.serviceable = true := by
              simp [PciEntry.serviceable, hv, hven, hs, ha, hn]
            obtain ⟨b, hb⟩ := hdevice entry (List.mem_cons_self _ _) hserv
            simp [discoverLoop, hv, hven, hs, ha, hn, hb, ihr, List.filter_cons, hserv,
              PciEntry.identifier]
          · have hserv : entry.serviceable = false := by
              simp [PciEntry.serviceable, hv, hven, hs, ha, hn]
            simp [discoverLoop, hv, hven, hs, ha, hn, ihr, List.filter_cons, hserv]
    · have hserv : entry.serviceable = false := by simp [PciEntry.serviceable, hv, hven]
      simp [discoverLoop, hv, hven, ihr, List.filter_cons, hserv]

/-- C17: `DiscoverDevices` is an order-preserving filter over the PCI directory listing.
When the directory can be listed, the vendor attribute of every entry can be read and
the device attribute of every serviceable entry can be read, the result is, in listing
order, one `Device` for each serviceable entry (vendor `0x1eff` after trimming;
`sriov_numvfs` absent, unreadable, not an integer, or zero), whose identifier is the
device attribute with white space trimmed and one leading `0x` removed.  The other entries
contribute nothing, and when no entry is serviceable the result is the empty list, with
no error. -/
theorem DiscoverDevices_filter (w : World) (entries : List PciEntry)
    (hdir : w.pciDevices = .ok entries)
    (hvendor : ∀ e ∈ entries, ∃ v, e.vendor = .ok v)
    (hdevice : ∀ e ∈ entries, e.serviceable = true → ∃ b, e.device = .ok b) :
    (DiscoverDevices w).1 =
      .ok ((entries.filter PciEntry.serviceable).map
        (fun e => { DeviceID := e.identifier })) ∧
    ((∀ e ∈ entries, e.serviceable = false) → (DiscoverDevices w).1 = .ok []) := by
  have h : (DiscoverDevices w).1 =
      .ok ((entries.filter PciEntry.serviceable).map
        (fun e => { DeviceID := e.identifier })) := by
    simp only [DiscoverDevices, hdir]
    rw [discoverLoop_filter entries [] hvendor hdevice]
    simp
  refine ⟨h, ?_⟩
  intro hnone
  rw [h]
  have hf : entries.filter PciEntry.serviceable = [] := by
    rw [List.filter_eq_nil_iff]
    intro e he
    simp [hnone e he]
  rw [hf]
  rfl

/-- C17 at `worldMixedPci`: of the four entries the second and the fourth are kept, in
that order; the entry of another vendor is skipped although its device attribute cannot
be read, and the physical function with four virtual functions is skipped. -/
theorem DiscoverDevices_filter_witness :
    (DiscoverDevices worldMixedPci).1 =
      .ok [{ DeviceID := "1020".toList }, { DeviceID := "1250".toList }] :=
  (DiscoverDevices_filter worldMixedPci [otherVendorEntry, atomEntry, sriovEntry, plainEntry]
    rfl
    (by
      intro e he
      simp only [List.mem_cons, List.mem_singleton, List.not_mem_nil, or_false] at he
      rcases he with rfl | rfl | rfl | rfl <;> exact ⟨_, rfl⟩)
    (by
      intro e he hs
      simp only [List.mem_cons, List.mem_singleton, List.not_mem_nil, or_false] at he
      rcases he with rfl | rfl | rfl | rfl
      · exact absurd hs (by decide)
      · exact ⟨_, rfl⟩
      · exact ⟨_, rfl⟩
      · exact ⟨_, rfl⟩)).1

/-! ## Parsing what was parsed (C16) -/

theorem parseDriverVersion_revision_eq_none (raw : Str) :
    (parseDriverVersion raw).revision = none ↔ ∀ c ∈ TrimSpace raw, c ∉ revisionSeparators := by
  rw [← IndexAny_none]
  cases hidx : IndexAny (TrimSpace raw) revisionSeparators with
  | none =>
    simp only [parseDriverVersion, hidx]
    split <;> simp
  | some i =>
    simp only [parseDriverVersion, hidx]
    split <;> simp

theorem TrimSpace_eq_self (s : Str) (hfirst : ∀ c, s.head? = some c → isSpace c = false)
    (hlast : ∀ c, s.getLast? = some c → isSpace c = false) : TrimSpace s = s := by
  have h1 : s.dropWhile isSpace = s := by
    cases s with
    | nil => rfl
    | cons a t => simp [List.dropWhile, hfirst a rfl]
  have h2 : s.reverse.dropWhile isSpace = s.reverse := by
    cases hr : s.reverse with
    | nil => rfl
    | cons a t =>
      have ha : s.getLast? = some a := by
        rw [← List.head?_reverse, hr]
        rfl
      simp [List.dropWhile, hlast a ha]
  simp only [TrimSpace, h1, h2, List.reverse_reverse]

theorem semverPortion_head_not_space (raw : Str) (c : Char)
    (h : (semverPortion raw).head? = some c) : isSpace c = false := by
  obtain ⟨-, -, -, -, -, hhead, -⟩ := TrimSpace_spec raw
  apply hhead
  unfold semverPortion at h
  cases ht : TrimSpace raw with
  | nil => rw [ht] at h; simp at h
  | cons a t =>
    rw [ht] at h
    simp only [List.takeWhile] at h
    split at h
    · simp only [List.head?_cons, Option.some.injEq] at h
      simp [h]
    · simp at h

theorem semverPortion_no_separator (raw : Str) :
    ∀ c ∈ semverPortion raw, c ∉ revisionSeparators := by
  intro c hc
  have := List.mem_takeWhile_imp hc
  simpa using this

theorem semverPortion_idem (raw : Str)
    (hlast : ∀ c, (semverPortion raw).getLast? = some c → isSpace c = false) :
    TrimSpace (semverPortion raw) = semverPortion raw ∧
      semverPortion (semverPortion raw) = semverPortion raw := by
  have ht := TrimSpace_eq_self (semverPortion raw) (semverPortion_head_not_space raw) hlast
  refine ⟨ht, ?_⟩
  have hno := semverPortion_no_separator raw
  have hdef : semverPortion (semverPortion raw) =
      (TrimSpace (semverPortion raw)).takeWhile (fun c => decide (c ∉ revisionSeparators)) :=
    rfl
  rw [hdef, ht, List.takeWhile_eq_self_iff]
  intro c hc
  simpa using hno c hc

/-- C16, as stated, fails when white space stands right before the first separator: for
`"1.2.3 -rc1"` the parse succeeds with `semver = "1.2.3 "` and `patch = "3 "`, and parsing
that `semver` again gives `semver = "1.2.3"` and `patch = "3"`. -/
theorem parseDriverVersion_not_idempotent :
    (parseDriverVersion "1.2.3 -rc1".toList).err = none ∧
      (parseDriverVersion "1.2.3 -rc1".toList).semver = "1.2.3 ".toList ∧
      (parseDriverVersion "1.2.3 -rc1".toList).patch = "3 ".toList ∧
      (parseDriverVersion (parseDriverVersion "1.2.3 -rc1".toList).semver).err = none ∧
      (parseDriverVersion (parseDriverVersion "1.2.3 -rc1".toList).semver).semver =
        "1.2.3".toList ∧
      (parseDriverVersion (parseDriverVersion "1.2.3 -rc1".toList).semver).patch =
        "3".toList ∧
      (parseDriverVersion (parseDriverVersion "1.2.3 -rc1".toList).semver).semver ≠
        (parseDriverVersion "1.2.3 -rc1".toList).semver ∧
      (parseDriverVersion (parseDriverVersion "1.2.3 -rc1".toList).semver).patch ≠
        (parseDriverVersion "1.2.3 -rc1".toList).patch := by
  refine ⟨?_, ?_, ?_, ?_, ?_, ?_, ?_, ?_⟩ <;> decide

/-- C16, amended: for every raw string on which `parseDriverVersion` succeeds and whose
`semver` result does not end in white space, parsing `semver` again succeeds and returns
the same `semver`, an absent revision, and the same `major`, `minor` and `patch`. -/
theorem parseDriverVersion_idempotent (raw : Str) (h : (parseDriverVersion raw).err = none)
    (hlast : ∀ c, (parseDriverVersion raw).semver.getLast? = some c → isSpace c = false) :
    (parseDriverVersion (parseDriverVersion raw).semver).err = none ∧
    (parseDriverVersion (parseDriverVersion raw).semver).semver =
      (parseDriverVersion raw).semver ∧
    (parseDriverVersion (parseDriverVersion raw).semver).revision = none ∧
    (parseDriverVersion (parseDriverVersion raw).semver).major = (parseDriverVersion raw).major ∧
    (parseDriverVersion (parseDriverVersion raw).semver).minor = (parseDriverVersion raw).minor ∧
    (parseDriverVersion (parseDriverVersion raw).semver).patch =
      (parseDriverVersion raw).patch := by
  rw [parseDriverVersion_semver] at hlast ⊢
  obtain ⟨htrim, hidem⟩ := semverPortion_idem raw hlast
  have hlen : ¬ (Split (semverPortion raw) '.').length < 3 := by
    intro hlt
    have herr := parseDriverVersion_err raw
    rw [h, if_pos hlt] at herr
    cases herr
  have hlen2 : ¬ (Split (semverPortion (semverPortion raw)) '.').length < 3 := by
    rw [hidem]
    exact hlen
  obtain ⟨a1, a2, a3⟩ := parseDriverVersion_parts raw hlen
  obtain ⟨b1, b2, b3⟩ := parseDriverVersion_parts (semverPortion raw) hlen2
  refine ⟨?_, ?_, ?_, ?_, ?_, ?_⟩
  · rw [parseDriverVersion_err, if_neg hlen2]
  · rw [parseDriverVersion_semver, hidem]
  · rw [parseDriverVersion_revision_eq_none, htrim]
    exact semverPortion_no_separator raw
  · rw [a1, b1, hidem]
  · rw [a2, b2, hidem]
  · rw [a3, b3, hidem]

/-- C16, amended, at `"1.2.3-rc1+build7"`: parsing `"1.2.3"` again changes nothing but
the revision, which is absent. -/
theorem parseDriverVersion_idempotent_witness :
    (parseDriverVersion (parseDriverVersion "1.2.3-rc1+build7".toList).semver).err = none ∧
      (parseDriverVersion (parseDriverVersion "1.2.3-rc1+build7".toList).semver).semver =
        (parseDriverVersion "1.2.3-rc1+build7".toList).semver ∧
      (parseDriverVersion (parseDriverVersion "1.2.3-rc1+build7".toList).semver).revision =
        none :=
  have h := parseDriverVersion_idempotent "1.2.3-rc1+build7".toList (by decide)
    (fun c hc => by
      have h3 : (parseDriverVersion "1.2.3-rc1+build7".toList).semver.getLast? = some '3' := by
        decide
      rw [h3] at hc
      cases hc
      decide)
  ⟨h.1, h.2.1, h.2.2.1⟩

/-! ## The driver-version fields of the published record (C13) -/

theorem setDriverVersion_versionFrom (f : Features) (v : ParsedVersion)
    (h : f.versionless) : (f.setDriverVersion v).versionFrom v := by
  obtain ⟨-, -, -, -, h5⟩ := h
  unfold Features.setDriverVersion Features.versionFrom
  cases hr : v.revision with
  | none => simp [h5]
  | some rev => simp

theorem separator_not_space (c : Char) (h : c ∈ revisionSeparators) : isSpace c = false := by
  simp only [revisionSeparators, List.mem_cons, List.mem_singleton, List.not_mem_nil,
    or_false] at h
  rcases h with rfl | rfl | rfl <;> decide

theorem mem_TrimSpace_of_separator (raw : Str) (c : Char) (h : c ∈ revisionSeparators) :
    c ∈ TrimSpace raw ↔ c ∈ raw := by
  obtain ⟨l, r, heq, hl, hr, -, -⟩ := TrimSpace_spec raw
  have hns := separator_not_space c h
  constructor
  · intro hc
    rw [heq]
    simp [hc]
  · intro hc
    rw [heq] at hc
    simp only [List.mem_append] at hc
    rcases hc with (hc | hc) | hc
    · have := hl c hc
      rw [hns] at this
      cases this
    · exact hc
    · have := hr c hc
      rw [hns] at this
      cases this

theorem TrimSpace_idem (s : Str) : TrimSpace (TrimSpace s) = TrimSpace s := by
  obtain ⟨-, -, -, -, -, hhead, hlast⟩ := TrimSpace_spec s
  exact TrimSpace_eq_self _ hhead hlast

theorem parseDriverVersion_TrimSpace (s : Str) :
    parseDriverVersion (TrimSpace s) = parseDriverVersion s := by
  simp only [parseDriverVersion, TrimSpace_idem]

theorem revision_isSome_iff (raw : Str) :
    (parseDriverVersion raw).revision.isSome = true ↔ ∃ c ∈ raw, c ∈ revisionSeparators := by
  have h := parseDriverVersion_revision_eq_none raw
  constructor
  · intro hs
    by_contra hno
    have : (parseDriverVersion raw).revision = none := by
      rw [h]
      intro c hc hsep
      exact hno ⟨c, (mem_TrimSpace_of_separator raw c hsep).mp hc, hsep⟩
    rw [this] at hs
    cases hs
  · rintro ⟨c, hc, hsep⟩
    cases hr : (parseDriverVersion raw).revision with
    | some rev => rfl
    | none =>
      exact absurd hsep ((h.mp hr) c ((mem_TrimSpace_of_separator raw c hsep).mpr hc))

theorem collectFromDaemon_version (w : World) (f0 : Features) (h0 : f0.versionless) :
    ((collectFromDaemon w f0).1 ≠ none → (collectFromDaemon w f0).2.1.versionless) ∧
    ((collectFromDaemon w f0).1 = none →
      (collectFromDaemon w f0).2.1.versionless ∨
        ∃ raw, w.version = .ok raw ∧ (parseDriverVersion raw).err = none ∧
          (collectFromDaemon w f0).2.1.versionFrom (parseDriverVersion raw)) := by
  cases h1 : w.dial with
  | some e => simp [collectFromDaemon, h1, h0]
  | none =>
    cases h2 : w.serviceableDevices with
    | error e => simp [collectFromDaemon, h1, h2, h0]
    | ok devices =>
      cases devices with
      | nil => simp [collectFromDaemon, h1, h2, h0]
      | cons d ds =>
        cases h3 : productFromDeviceID d with
        | error e =>
          simp only [collectFromDaemon, h1, h2, h3]
          exact ⟨fun _ => h0, fun h => absurd h (by simp)⟩
        | ok p =>
          cases h4 : DeviceProduct.Family p with
          | error e =>
            simp only [collectFromDaemon, h1, h2, h3, h4]
            exact ⟨fun _ => h0, fun h => absurd h (by simp)⟩
          | ok family =>
            cases h5 : w.version with
            | error e =>
              simp only [collectFromDaemon, h1, h2, h3, h4, h5]
              exact ⟨fun _ => h0, fun _ => Or.inl (h0)⟩
            | ok v =>
              cases h6 : (parseDriverVersion v).err with
              | some e =>
                simp only [collectFromDaemon, h1, h2, h3, h4, h5, h6]
                exact ⟨fun _ => h0, fun h => absurd h (by simp)⟩
              | none =>
                simp only [collectFromDaemon, h1, h2, h3, h4, h5, h6]
                refine ⟨fun h => absurd rfl h, fun _ => Or.inr ⟨v, rfl, h6, ?_⟩⟩
                exact setDriverVersion_versionFrom _ _ (h0)

theorem collectVersionFromSysfs_version (w : World) (f0 : Features) (h0 : f0.versionless)
    (hok : (collectVersionFromSysfs w f0).1 = none) :
    (collectVersionFromSysfs w f0).2.1.versionless ∨
      ∃ raw, w.kernelVersionRead = .ok raw ∧ (parseDriverVersion raw).err = none ∧
        (collectVersionFromSysfs w f0).2.1.versionFrom (parseDriverVersion raw) := by
  cases h1 : w.kernelVersionStat with
  | notExist =>
    left
    simpa [collectVersionFromSysfs, ReadDriverVersion, h1] using h0
  | failed e =>
    left
    simpa [collectVersionFromSysfs, ReadDriverVersion, h1] using h0
  | found =>
    cases h2 : w.kernelVersionRead with
    | error e =>
      left
      simpa [collectVersionFromSysfs, ReadDriverVersion, h1, h2] using h0
    | ok bytes =>
      cases h3 : (parseDriverVersion (TrimSpace bytes)).err with
      | some e =>
        simp [collectVersionFromSysfs, ReadDriverVersion, h1, h2, h3] at hok
      | none =>
        right
        rw [parseDriverVersion_TrimSpace] at h3
        refine ⟨bytes, rfl, h3, ?_⟩
        have hset := setDriverVersion_versionFrom f0 (parseDriverVersion bytes) h0
        simpa [collectVersionFromSysfs, ReadDriverVersion, h1, h2, h3,
          parseDriverVersion_TrimSpace] using hset

theorem collectFromSysfs_version (w : World) (f0 : Features) (h0 : f0.versionless)
    (hok : (collectFromSysfs w f0).1 = none) :
    (collectFromSysfs w f0).2.1.versionless ∨
      ∃ raw, w.kernelVersionRead = .ok raw ∧ (parseDriverVersion raw).err = none ∧
        (collectFromSysfs w f0).2.1.versionFrom (parseDriverVersion raw) := by
  cases h1 : (DiscoverDevices w).1 with
  | error e => simp [collectFromSysfs, h1] at hok
  | ok devices =>
    cases devices with
    | nil =>
      simp only [collectFromSysfs, h1] at hok ⊢
      exact collectVersionFromSysfs_version w f0 h0 hok
    | cons d ds =>
      cases h2 : productFromDeviceID d.DeviceID with
      | error e => simp [collectFromSysfs, h1, h2] at hok
      | ok p =>
        cases h3 : DeviceProduct.Family p with
        | error e => simp [collectFromSysfs, h1, h2, h3] at hok
        | ok family =>
          simp only [collectFromSysfs, h1, h2, h3] at hok ⊢
          exact collectVersionFromSysfs_version w _ h0 hok

theorem versionless_or_versionFrom_fields (f : Features) :
    (f.versionless →
      (f.DriverVersionMajor.isSome = true ↔ f.DriverVersionFull.isSome = true) ∧
      (f.DriverVersionMinor.isSome = true ↔ f.DriverVersionFull.isSome = true) ∧
      (f.DriverVersionPatch.isSome = true ↔ f.DriverVersionFull.isSome = true) ∧
      (f.DriverVersionRevision.isSome = true → f.DriverVersionFull.isSome = true) ∧
      f.DriverVersionFull.isSome = false) ∧
    (∀ v, f.versionFrom v →
      (f.DriverVersionMajor.isSome = true ↔ f.DriverVersionFull.isSome = true) ∧
      (f.DriverVersionMinor.isSome = true ↔ f.DriverVersionFull.isSome = true) ∧
      (f.DriverVersionPatch.isSome = true ↔ f.DriverVersionFull.isSome = true) ∧
      (f.DriverVersionRevision.isSome = true → f.DriverVersionFull.isSome = true)) := by
  constructor
  · rintro ⟨h1, h2, h3, h4, h5⟩
    simp [h1, h2, h3, h4, h5]
  · rintro v ⟨h1, h2, h3, h4, h5⟩
    simp [h1, h2, h3, h4]

/-- C13: whenever `CollectOnce` reaches the publish step, in the record handed to `save`
each of major, minor and patch is present if and only if full is present, and the
revision is present only when full is.  When full is present, the five fields are the
results of parsing one raw version string (that of the daemon when the daemon attempt
succeeded, that of the kernel-version file otherwise), and the revision is present exactly
when that string contains one of `-`, `+`, `~`. -/
theorem published_driver_version_fields (w : World) (f : Features) (events : List Event)
    (h : collectFeatures w = (none, f, events)) :
    (f.DriverVersionMajor.isSome = true ↔ f.DriverVersionFull.isSome = true) ∧
    (f.DriverVersionMinor.isSome = true ↔ f.DriverVersionFull.isSome = true) ∧
    (f.DriverVersionPatch.isSome = true ↔ f.DriverVersionFull.isSome = true) ∧
    (f.DriverVersionRevision.isSome = true → f.DriverVersionFull.isSome = true) ∧
    (f.DriverVersionFull.isSome = true →
      ∃ raw,
        (((collectFromDaemon w newFeatures).1 = none ∧ w.version = .ok raw) ∨
          ((collectFromDaemon w newFeatures).1 ≠ none ∧ w.kernelVersionRead = .ok raw)) ∧
        (parseDriverVersion raw).err = none ∧
        f.versionFrom (parseDriverVersion raw) ∧
        (f.DriverVersionRevision.isSome = true ↔ ∃ c ∈ raw, c ∈ revisionSeparators)) := by
  have hfresh : newFeatures.versionless := ⟨rfl, rfl, rfl, rfl, rfl⟩
  obtain ⟨hdfail, hdok⟩ := collectFromDaemon_version w newFeatures hfresh
  have key : f.versionless ∨ ∃ raw,
      (((collectFromDaemon w newFeatures).1 = none ∧ w.version = .ok raw) ∨
        ((collectFromDaemon w newFeatures).1 ≠ none ∧ w.kernelVersionRead = .ok raw)) ∧
      (parseDriverVersion raw).err = none ∧ f.versionFrom (parseDriverVersion raw) := by
    cases hd : (collectFromDaemon w newFeatures).1 with
    | none =>
      have hf : f = (collectFromDaemon w newFeatures).2.1 := by
        simp only [collectFeatures, hd] at h
        exact (congrArg (fun r => r.2.1) h).symm
      rw [hf]
      rcases hdok hd with hvl | ⟨raw, hraw, herr, hvf⟩
      · exact Or.inl hvl
      · exact Or.inr ⟨raw, Or.inl ⟨rfl, hraw⟩, herr, hvf⟩
    | some e =>
      have hne : (collectFromDaemon w newFeatures).1 ≠ none := by rw [hd]; simp
      cases hs : (collectFromSysfs w (collectFromDaemon w newFeatures).2.1).1 with
      | some e2 =>
        simp only [collectFeatures, hd, hs] at h
        cases h
      | none =>
        have hf : f = (collectFromSysfs w (collectFromDaemon w newFeatures).2.1).2.1 := by
          simp only [collectFeatures, hd, hs] at h
          exact (congrArg (fun r => r.2.1) h).symm
        rw [hf]
        rcases collectFromSysfs_version w _ (hdfail hne) hs with hvl | ⟨raw, hraw, herr, hvf⟩
        · exact Or.inl hvl
        · exact Or.inr ⟨raw, Or.inr ⟨by simp, hraw⟩, herr, hvf⟩
  obtain ⟨hA, hB⟩ := versionless_or_versionFrom_fields f
  rcases key with hvl | ⟨raw, hsrc, herr, hvf⟩
  · obtain ⟨a1, a2, a3, a4, a5⟩ := hA hvl
    refine ⟨a1, a2, a3, a4, ?_⟩
    intro hfull
    rw [a5] at hfull
    cases hfull
  · obtain ⟨a1, a2, a3, a4⟩ := hB _ hvf
    refine ⟨a1, a2, a3, a4, fun _ => ⟨raw, hsrc, herr, hvf, ?_⟩⟩
    rw [hvf.2.2.2.2]
    exact revision_isSome_iff raw

/-- C13 at `worldDaemonFull`: the five driver-version fields of the record come from the
daemon's `1.2.3-rc1+build7`. -/
theorem published_driver_version_fields_witness :
    collectFeatures worldDaemonFull =
        (none, fullRecord,
          [Event.dial, Event.serviceableDevices, Event.version "1020".toList, Event.close]) ∧
      (fullRecord.DriverVersionPatch.isSome = true ↔
        fullRecord.DriverVersionFull.isSome = true) ∧
      (fullRecord.DriverVersionRevision.isSome = true →
        fullRecord.DriverVersionFull.isSome = true) :=
  have h := published_driver_version_fields worldDaemonFull fullRecord
    [Event.dial, Event.serviceableDevices, Event.version "1020".toList, Event.close]
    (by decide)
  ⟨by decide, h.2.2.1, h.2.2.2.1⟩

/-! ## Lemmas on the paths of `save` -/

theorem Split_no_sep (s : Str) (sep : Char) : ∀ p ∈ Split s sep, sep ∉ p := by
  induction s with
  | nil => simp [Split]
  | cons c cs ih =>
    obtain ⟨hd, tl, hsplit, hno, -⟩ := Split_spec cs sep
    by_cases hc : c = sep
    · subst hc
      intro p hp
      simp only [Split, if_true, List.mem_cons] at hp
      rcases hp with rfl | hp
      · simp
      · exact ih p hp
    · intro p hp
      rw [hsplit] at ih
      simp only [Split, hc, if_false, hsplit, List.headD_cons, List.tail_cons,
        List.mem_cons] at hp
      rcases hp with rfl | hp
      · simp only [List.mem_cons, not_or]
        exact ⟨fun h => hc h.symm, hno⟩
      · exact ih p (List.mem_cons_of_mem _ hp)

theorem Split_of_not_mem (e : Str) (sep : Char) (h : sep ∉ e) : Split e sep = [e] := by
  obtain ⟨hd, tl, hsplit, -, hrest⟩ := Split_spec e sep
  rcases hrest with ⟨ht, he⟩ | ⟨rest, he, -⟩
  · rw [hsplit, ht, he]
  · exact absurd (by rw [he]; simp) h

theorem Split_append (a b : Str) (sep : Char) :
    Split (a ++ sep :: b) sep = Split a sep ++ Split b sep := by
  induction a with
  | nil => simp [Split]
  | cons c cs ih =>
    by_cases hc : c = sep
    · subst hc
      simp [Split, ih]
    · obtain ⟨hd, tl, hsplit, -, -⟩ := Split_spec cs sep
      have e1 : Split (c :: (cs ++ sep :: b)) sep =
          (c :: (Split (cs ++ sep :: b) sep).headD []) ::
            (Split (cs ++ sep :: b) sep).tail := by
        simp [Split, hc]
      have e2 : Split (c :: cs) sep = (c :: hd) :: tl := by simp [Split, hc, hsplit]
      rw [List.cons_append, e1, e2, ih, hsplit]
      rfl

theorem keptElem_dotdot : keptElem ['.', '.'] := ⟨by simp, by simp, by decide⟩

theorem cleanStep_kept (rooted : Bool) (out : List Str) (elem : Str)
    (hout : ∀ x ∈ out, keptElem x) (helem : '/' ∉ elem) :
    ∀ x ∈ cleanStep rooted out elem, keptElem x := by
  by_cases h1 : elem = [] ∨ elem = ['.']
  · simp only [cleanStep, h1, if_true]
    exact hout
  · by_cases h2 : elem = ['.', '.']
    · subst h2
      cases out with
      | nil =>
        cases rooted
        · intro x hx
          have hx2 : x = ['.', '.'] := by simpa [cleanStep] using hx
          rw [hx2]
          exact keptElem_dotdot
        · intro x hx
          simp [cleanStep] at hx
      | cons top rest =>
        by_cases h3 : top = ['.', '.']
        · intro x hx
          have hx2 : x = ['.', '.'] ∨ x ∈ rest := by
            simp only [cleanStep, h3] at hx
            simpa using hx
          rcases hx2 with rfl | hx2
          · exact keptElem_dotdot
          · exact hout x (List.mem_cons_of_mem _ hx2)
        · intro x hx
          have hx2 : x ∈ rest := by
            simp only [cleanStep, h3] at hx
            simpa using hx
          exact hout x (List.mem_cons_of_mem _ hx2)
    · intro x hx
      have hx2 : x = elem ∨ x ∈ out := by
        simp only [cleanStep, h1, h2, if_false] at hx
        simpa using hx
      rcases hx2 with rfl | hx2
      · exact ⟨fun h => h1 (Or.inl h), fun h => h1 (Or.inr h), helem⟩
      · exact hout x hx2

theorem foldl_cleanStep_kept (rooted : Bool) (pieces : List Str) (out : List Str)
    (hout : ∀ x ∈ out, keptElem x) (hp : ∀ p ∈ pieces, '/' ∉ p) :
    ∀ x ∈ pieces.foldl (cleanStep rooted) out, keptElem x := by
  induction pieces generalizing out with
  | nil => simpa using hout
  | cons p ps ih =>
    simp only [List.foldl_cons]
    apply ih
    · exact cleanStep_kept rooted out p hout (hp p (List.mem_cons_self _ _))
    · exact fun q hq => hp q (List.mem_cons_of_mem _ hq)

/-- `Clean` is the rendering of the elements it keeps. -/
theorem Clean_eq_renderPath (path : Str) :
    ∃ elems, (∀ x ∈ elems, keptElem x) ∧
      Clean path = renderPath (decide (path.head? = some '/')) elems ∧
      elems = ((Split path '/').foldl
        (cleanStep (decide (path.head? = some '/'))) []).reverse := by
  refine ⟨_, ?_, rfl, rfl⟩
  intro x hx
  rw [List.mem_reverse] at hx
  exact foldl_cleanStep_kept _ _ [] (by simp) (Split_no_sep path '/') x hx

theorem intercalate_singleton (sep e : Str) : List.intercalate sep [e] = e := by
  simp [List.intercalate, List.intersperse]

theorem intercalate_cons_cons (sep a b : Str) (t : List Str) :
    List.intercalate sep (a :: b :: t) = a ++ sep ++ List.intercalate sep (b :: t) := by
  simp [List.intercalate, List.intersperse]

theorem intercalate_concat (sep e : Str) (init : List Str) (h : init ≠ []) :
    List.intercalate sep (init ++ [e]) = List.intercalate sep init ++ sep ++ e := by
  induction init with
  | nil => exact absurd rfl h
  | cons a t ih =>
    cases t with
    | nil => simp [intercalate_cons_cons, intercalate_singleton]
    | cons b u =>
      have := ih (by simp)
      simp only [List.cons_append] at this ⊢
      rw [intercalate_cons_cons, this, intercalate_cons_cons]
      simp [List.append_assoc]

theorem renderPath_nil (rooted : Bool) :
    renderPath rooted [] = if rooted then ['/'] else ['.'] := by
  cases rooted <;> rfl

theorem renderPath_concat (rooted : Bool) (init : List Str) (e : Str) (he : e ≠ []) :
    ∃ X, renderPath rooted (init ++ [e]) = X ++ e ∧ (X = [] ∨ X.getLast? = some '/') := by
  by_cases hinit : init = []
  · subst hinit
    refine ⟨if rooted then ['/'] else [], ?_, ?_⟩
    · simp only [renderPath, List.nil_append, intercalate_singleton]
      rw [if_neg]
      cases rooted <;> simp [he]
    · cases rooted <;> simp
  · refine ⟨(if rooted then ['/'] else []) ++ List.intercalate ['/'] init ++ ['/'], ?_, ?_⟩
    · simp only [renderPath, intercalate_concat _ _ _ hinit]
      rw [if_neg]
      · simp [List.append_assoc]
      · simp [he]
    · right
      simp

theorem getLast?_append_of_ne_nil (X e : Str) (he : e ≠ []) :
    (X ++ e).getLast? = e.getLast? := by
  cases hl : e.getLast? with
  | none => simp [List.getLast?_eq_none_iff] at hl; exact absurd hl he
  | some c => simp [hl]

theorem lastElem_append (X e : Str) (he : '/' ∉ e) (hX : X = [] ∨ X.getLast? = some '/') :
    lastElem (X ++ e) = e := by
  unfold lastElem
  rw [List.reverse_append, List.takeWhile_append_of_pos]
  · have hx : X.reverse.takeWhile (· ≠ '/') = [] := by
      rcases hX with rfl | hX
      · rfl
      · cases hr : X.reverse with
        | nil => rfl
        | cons a t =>
          have ha : X.getLast? = some a := by
            rw [← List.head?_reverse, hr]
            rfl
          rw [hX] at ha
          cases ha
          simp
    rw [hx]
    simp
  · intro a ha
    have : a ∈ e := List.mem_reverse.mp ha
    simp only [ne_eq, decide_not, Bool.not_eq_true', decide_eq_false_iff_not]
    intro h
    exact he (h ▸ this)

/-- The three shapes of a cleaned path: `.`, `/`, or a path that ends in a kept element
which stands at the start or after a `/`. -/
theorem Clean_form (path : Str) :
    Clean path = ['.'] ∨ Clean path = ['/'] ∨
      ∃ X e, Clean path = X ++ e ∧ keptElem e ∧ (X = [] ∨ X.getLast? = some '/') := by
  obtain ⟨elems, hkept, hclean, -⟩ := Clean_eq_renderPath path
  rcases List.eq_nil_or_concat elems with rfl | ⟨init, e, rfl⟩
  · rw [hclean, renderPath_nil]
    cases decide (path.head? = some '/') <;> simp
  · right; right
    have he : keptElem e := hkept e (by simp)
    rw [List.concat_eq_append] at hclean
    obtain ⟨X, hX, hform⟩ := renderPath_concat (decide (path.head? = some '/')) init e he.1
    exact ⟨X, e, by rw [hclean, hX], he, hform⟩

/-- A cleaned path whose last element is an ordinary name ends in that name. -/
theorem Clean_append_elem (dir e : Str) (he : keptElem e) (hdd : e ≠ ['.', '.']) :
    ∃ X, Clean (dir ++ '/' :: e) = X ++ e ∧ (X = [] ∨ X.getLast? = some '/') := by
  obtain ⟨elems, -, hclean, helems⟩ := Clean_eq_renderPath (dir ++ '/' :: e)
  have hstep : ∀ out, cleanStep (decide ((dir ++ '/' :: e).head? = some '/')) out e =
      e :: out := by
    intro out
    have h1 : ¬ (e = [] ∨ e = ['.']) := fun h => h.elim he.1 he.2.1
    simp only [cleanStep, h1, hdd, if_false]
  rw [Split_append, Split_of_not_mem e '/' he.2.2, List.foldl_append] at helems
  simp only [List.foldl_cons, List.foldl_nil, hstep, List.reverse_cons] at helems
  rw [hclean, helems]
  exact renderPath_concat _ _ e he.1

/-- `Base` of a path that does not end in `/`: its last element, not empty. -/
theorem Base_of_no_trailing_slash (path : Str) (h : Char) (t : Str)
    (hrev : path.reverse = h :: t) (hh : h ≠ '/') :
    Base path = lastElem path ∧ Base path ≠ [] ∧ '/' ∉ Base path := by
  have hne : path ≠ [] := by
    intro hp
    rw [hp] at hrev
    cases hrev
  have hlast : lastElem path ≠ [] := by
    simp [lastElem, hrev, List.takeWhile, hh]
  have hbase : Base path = lastElem path := by
    simp only [Base, hne, if_false, hrev, lastElem]
    have hd : List.dropWhile (fun x => decide (x = '/')) (h :: t) = h :: t := by
      simp [List.dropWhile, hh]
    rw [hd]
    have hl2 : (List.takeWhile (fun x => decide (x ≠ '/')) (h :: t)).reverse ≠ [] := by
      simpa [lastElem, hrev] using hlast
    rw [if_neg hl2]
  refine ⟨hbase, by rw [hbase]; exact hlast, ?_⟩
  rw [hbase]
  intro hmem
  have := List.mem_takeWhile_imp (List.mem_reverse.mp hmem)
  simp at this

/-- The temporary path of `save` is `Clean` of the directory, `/`, `.` and the base. -/
theorem tempPath_eq (c : FeaturesCollector) :
    tempPath c = Clean (Dir c.outputFile ++ '/' :: '.' :: Base c.outputFile) := by
  have hd := Dir_ne_nil c.outputFile
  simp only [tempPath, Join]
  cases hdir : Dir c.outputFile with
  | nil => exact absurd hdir hd
  | cons a t =>
    simp [List.dropWhile, intercalate_cons_cons, intercalate_singleton]

theorem mem_of_getLast?_eq (l : Str) (a : Char) (h : l.getLast? = some a) : a ∈ l := by
  rw [← List.head?_reverse] at h
  cases hr : l.reverse with
  | nil => rw [hr] at h; cases h
  | cons b t =>
    rw [hr] at h
    cases h
    exact List.mem_reverse.mp (by rw [hr]; simp)

/-- The temporary path of `save` is the output path only for the output path `/`. -/
theorem tempPath_eq_outputFile_iff (c : FeaturesCollector) :
    tempPath c = c.outputFile ↔ c.outputFile = ['/'] := by
  constructor
  · intro heq
    by_contra hroot
    rw [tempPath_eq] at heq
    cases hrev : c.outputFile.reverse with
    | nil =>
      have hnil : c.outputFile = [] := by simpa using hrev
      rw [hnil] at heq
      exact Clean_ne_nil _ heq
    | cons h t =>
      have hlast : c.outputFile.getLast? = some h := by
        rw [← List.head?_reverse, hrev]
        rfl
      by_cases hh : h = '/'
      · subst hh
        rcases Clean_form (Dir c.outputFile ++ '/' :: '.' :: Base c.outputFile) with
          hA | hB | ⟨X, e, hC, hkept, -⟩
        · rw [heq] at hA
          rw [hA] at hlast
          cases hlast
        · rw [heq] at hB
          exact hroot hB
        · rw [heq] at hC
          rw [hC, getLast?_append_of_ne_nil X e hkept.1] at hlast
          exact hkept.2.2 (mem_of_getLast?_eq e '/' hlast)
      · obtain ⟨hbase, hbne, hbslash⟩ := Base_of_no_trailing_slash c.outputFile h t hrev hh
        by_cases hdot : Base c.outputFile = ['.']
        · rcases Clean_form (Dir c.outputFile ++ '/' :: '.' :: Base c.outputFile) with
            hA | hB | ⟨X, e, hC, hkept, hX⟩
          · have hout : c.outputFile = ['.'] := by rw [← heq, hA]
            rw [hout] at heq
            revert heq
            decide
          · rw [heq] at hB
            exact hroot hB
          · have hl := lastElem_append X e hkept.2.2 hX
            rw [← hC, heq, ← hbase, hdot] at hl
            exact hkept.2.1 hl.symm
        · have hkept : keptElem ('.' :: Base c.outputFile) := by
            refine ⟨by simp, ?_, ?_⟩
            · simpa using hbne
            · simp only [List.mem_cons, not_or]
              exact ⟨by decide, hbslash⟩
          have hdd : '.' :: Base c.outputFile ≠ ['.', '.'] := by
            simpa using hdot
          obtain ⟨X, hC, hX⟩ := Clean_append_elem (Dir c.outputFile) _ hkept hdd
          have hl := lastElem_append X _ hkept.2.2 hX
          rw [← hC, heq, ← hbase] at hl
          have hlen := congrArg List.length hl
          simp at hlen
  · intro hroot
    simp only [tempPath, hroot]
    decide

/-! ## The publish step (C14, C15) -/

theorem getLast?_inits (l : Str) : (List.inits l).getLast? = some l := by
  induction l with
  | nil => rfl
  | cons a t ih =>
    rw [List.inits_cons, List.getLast?_cons, List.getLast?_map, ih]
    rfl

theorem writeStates_getLast? (fs : Files) (path written : Str) :
    (fs.writeStates path written).getLast? = some (fs.write path written) := by
  simp [Files.writeStates, getLast?_inits]

/-- A write through a path that does not name the file at `target` leaves what is read at
`target`. -/
theorem read_write_other (fs : Files) (tmp target data : Str)
    (h : ¬ namesSameFile fs tmp target) : (fs.write tmp data) target = fs target := by
  have hne : target ≠ tmp := fun e => h (Or.inl e.symm)
  show Files.read _ _ = Files.read _ _
  unfold Files.read Files.write
  cases ht : fs.node tmp with
  | some i =>
    cases hg : fs.node target with
    | none => simp [hg]
    | some j =>
      have hji : j ≠ i := by
        intro e
        subst e
        exact h (Or.inr ⟨j, ht, hg⟩)
      simp [hg, hji]
  | none =>
    cases hg : fs.node target with
    | none => simp [hg, hne]
    | some j =>
      have hj : j ≠ fs.next := Nat.ne_of_lt (fs.wf target j hg)
      simp [hg, hne, hj]

theorem mem_writeStates (fs : Files) (tmp target written : Str) (s : Files)
    (h : ¬ namesSameFile fs tmp target) (hs : s ∈ fs.writeStates tmp written) :
    s target = fs target := by
  obtain ⟨part, -, rfl⟩ := List.mem_map.mp hs
  exact read_write_other fs tmp target part h

/-- The error of `save`, and the files it ends with, for each outcome of its calls. -/
theorem save_cases (c : FeaturesCollector) (w : World) (features : Features) (fs : Files) :
    (∀ err, w.statDir = some err →
      (save c w features fs).1 ≠ none ∧ (save c w features fs).2.1 = fs) ∧
    (∀ err, w.statDir = none → w.writeTemp = .failed err none →
      (save c w features fs).1 ≠ none ∧ (save c w features fs).2.1 = fs) ∧
    (∀ err part, w.statDir = none → w.writeTemp = .failed err (some part) →
      (save c w features fs).1 ≠ none ∧
        (save c w features fs).2.1 = fs.write (tempPath c) part) ∧
    (∀ err, w.statDir = none → w.writeTemp = .done → w.renameTemp = some err →
      (save c w features fs).1 ≠ none ∧
        (save c w features fs).2.1 = fs.write (tempPath c) (saveText c w features)) ∧
    (w.statDir = none → w.writeTemp = .done → w.renameTemp = none →
      (save c w features fs).1 = none) := by
  have hdir := Dir_ne_nil c.outputFile
  refine ⟨?_, ?_, ?_, ?_, ?_⟩
  · intro err h1
    simp [save, saveRun, hdir, h1]
  · intro err h1 h2
    simp [save, saveRun, hdir, h1, h2]
  · intro err part h1 h2
    simp [save, saveRun, hdir, h1, h2, writeStates_getLast?]
  · intro err h1 h2 h3
    simp [save, saveRun, hdir, h1, h2, h3, writeStates_getLast?]
  · intro h1 h2 h3
    simp [save, saveRun, hdir, h1, h2, h3]

/-- C14, as stated, fails for a prior state in which the name of the temporary file is a
hard link to the published file (`linkedFiles`).  At `worldWriteFails` the write stops
after five characters and `save` returns its error, and the output path, which held the
label file of the earlier cycle, now holds those five characters.  At `worldRenameFails`
the write goes through, the rename fails, `save` returns its error, and the output path
holds the new text. -/
theorem save_failure_changes_linked_target :
    linkedFiles sampleCollector.outputFile =
        some "rebellions.ai/npu.present=false\n".toList ∧
      (save sampleCollector worldWriteFails newFeatures linkedFiles).1 =
        some (Err.wrap "writing temp feature file".toList
          (Err.external "no space left on device".toList)) ∧
      (save sampleCollector worldWriteFails newFeatures linkedFiles).2.1
          sampleCollector.outputFile = some "rebel".toList ∧
      (save sampleCollector worldRenameFails presenceOnlySample linkedFiles).1 =
        some (Err.wrap "publishing feature file".toList
          (Err.external "permission denied".toList)) ∧
      (save sampleCollector worldRenameFails presenceOnlySample linkedFiles).2.1
          sampleCollector.outputFile =
        some ("rebellions.ai/npu.present=true\nrebellions.ai/npu.count=1\n" ++
          "rebellions.ai/npu.family=ATOM\nrebellions.ai/npu.product=RBLN-CA02\n").toList := by
  refine ⟨?_, ?_, ?_, ?_, ?_⟩ <;> decide

/-- C14, amended: a publish failure leaves the published file unchanged when, in the
prior state, the temporary path does not name the file at the output path, that is, it is
another path and not a link to that file.  For every collector, world, record and such
prior state, if `save` returns an error, the content at the output path after the call is
the content before it (or the path is still absent).  `save` returns an error exactly
when the directory check fails, the write of the temporary file fails, or the rename
fails; the temporary path is the output path itself only for the output path `/`. -/
theorem save_failure_keeps_target (c : FeaturesCollector) (w : World) (features : Features)
    (fs : Files)
    (hdistinct : ¬ namesSameFile fs (tempPath c) c.outputFile)
    (herr : (save c w features fs).1 ≠ none) :
    (save c w features fs).2.1 c.outputFile = fs c.outputFile ∧
    ((save c w features fs).1 ≠ none ↔
      (w.statDir ≠ none ∨
        (w.statDir = none ∧ ∃ err left, w.writeTemp = .failed err left) ∨
        (w.statDir = none ∧ w.writeTemp = .done ∧ w.renameTemp ≠ none))) ∧
    (tempPath c = c.outputFile ↔ c.outputFile = ['/']) := by
  obtain ⟨hA, hB, hC, hD, hE⟩ := save_cases c w features fs
  refine ⟨?_, ?_, tempPath_eq_outputFile_iff c⟩
  · cases h1 : w.statDir with
    | some e => rw [(hA e h1).2]
    | none =>
      cases h2 : w.writeTemp with
      | failed e left =>
        cases left with
        | none => rw [(hB e h1 h2).2]
        | some part =>
          rw [(hC e part h1 h2).2]
          exact read_write_other fs _ _ part hdistinct
      | done =>
        cases h3 : w.renameTemp with
        | some e =>
          rw [(hD e h1 h2 h3).2]
          exact read_write_other fs _ _ _ hdistinct
        | none => exact absurd (hE h1 h2 h3) herr
  · cases h1 : w.statDir with
    | some e => simpa using (hA e h1).1
    | none =>
      cases h2 : w.writeTemp with
      | failed e left =>
        cases left with
        | none => simpa using (hB e h1 h2).1
        | some part => simpa using (hC e part h1 h2).1
      | done =>
        cases h3 : w.renameTemp with
        | some e => simpa using (hD e h1 h2 h3).1
        | none => simpa using hE h1 h2 h3

/-- C14, amended, at `worldWriteFails` over `previousFiles`, where no temporary file
exists: the write of the temporary file stops after five characters; the label file of
the earlier cycle is as it was. -/
theorem save_failure_keeps_target_witness :
    (save sampleCollector worldWriteFails fullRecord previousFiles).1 =
        some (Err.wrap "writing temp feature file".toList
          (Err.external "no space left on device".toList)) ∧
      (save sampleCollector worldWriteFails fullRecord previousFiles).2.1
          sampleCollector.outputFile =
        some "rebellions.ai/npu.present=false\n".toList ∧
      (save sampleCollector worldWriteFails fullRecord previousFiles).2.1
          (tempPath sampleCollector) = some "rebel".toList :=
  have hnode : previousFiles.node (tempPath sampleCollector) = none := by decide
  have h := save_failure_keeps_target sampleCollector worldWriteFails fullRecord previousFiles
    (fun hs => hs.elim (fun he => absurd he (by decide))
      (fun ⟨i, hi, _⟩ => by rw [hnode] at hi; cases hi))
    (by decide)
  ⟨by decide, by rw [h.1]; decide, by decide⟩

/-- C15, as stated, fails in two ways.  For the output path `/` the directory and the
base are both `/`, and the temporary path `filepath.Join("/", "./")` is `/`, the output
path itself.  And in a prior state in which the name of the temporary file is a hard link
to the published file (`linkedFiles`), a state that `save` passes while it writes the
temporary file shows the first five characters of the new text at the output path, which
is neither the previous content nor the new text. -/
theorem tempPath_of_root_is_outputFile :
    Dir rootCollector.outputFile = "/".toList ∧
      Base rootCollector.outputFile = "/".toList ∧
      tempPath rootCollector = "/".toList ∧
      tempPath rootCollector = rootCollector.outputFile ∧
      linkedFiles.write (tempPath sampleCollector) "rebel".toList ∈
        saveStates sampleCollector worldNoDevices newFeatures linkedFiles ∧
      (linkedFiles.write (tempPath sampleCollector) "rebel".toList)
          sampleCollector.outputFile = some "rebel".toList ∧
      linkedFiles sampleCollector.outputFile =
        some "rebellions.ai/npu.present=false\n".toList ∧
      saveText sampleCollector worldNoDevices newFeatures =
        "rebellions.ai/npu.present=false\n".toList := by
  refine ⟨by decide, by decide, by decide, by decide, ?_, by decide, by decide, by decide⟩
  have hrun : (saveRun sampleCollector worldNoDevices newFeatures linkedFiles).2.1 =
      linkedFiles.writeStates (tempPath sampleCollector)
          (saveText sampleCollector worldNoDevices newFeatures) ++
        [(linkedFiles.write (tempPath sampleCollector)
          (saveText sampleCollector worldNoDevices newFeatures)).rename
            (tempPath sampleCollector) sampleCollector.outputFile] := by
    have hdir := Dir_ne_nil sampleCollector.outputFile
    simp only [saveRun, hdir, if_false]
    rfl
  unfold saveStates
  rw [hrun]
  refine List.mem_cons_of_mem _ (List.mem_append_left _ ?_)
  refine List.mem_map.mpr ⟨"rebel".toList, (List.mem_inits _ _).mpr ?_, rfl⟩
  exact ⟨"lions.ai/npu.present=false\n".toList, by decide⟩

/-- C15, amended: the temporary path of `save` is the output path itself only for the
output path `/`.  When, in the prior state, the temporary path does not name the file at
the output path (it is another path and not a link to that file), then in every state a
reader can observe while `save` runs (the state before the call and every state of the
run, those of the growing temporary file included) the content at the output path is the
complete previous content or the complete new text; it differs from the previous content
only in the state after the rename, which exists only when `save` succeeds; and the state
`save` ends in is one of these states. -/
theorem save_target_changes_only_by_rename (c : FeaturesCollector) (w : World)
    (features : Features) (fs : Files)
    (hdistinct : ¬ namesSameFile fs (tempPath c) c.outputFile) :
    (tempPath c = c.outputFile ↔ c.outputFile = ['/']) ∧
    (∀ s ∈ saveStates c w features fs,
      s c.outputFile = fs c.outputFile ∨ s c.outputFile = some (saveText c w features)) ∧
    (∀ s ∈ saveStates c w features fs, s c.outputFile ≠ fs c.outputFile →
      (save c w features fs).1 = none ∧
        s = (fs.write (tempPath c) (saveText c w features)).rename (tempPath c)
          c.outputFile) ∧
    (save c w features fs).2.1 ∈ saveStates c w features fs := by
  have hdir := Dir_ne_nil c.outputFile
  obtain ⟨-, -, -, -, hE⟩ := save_cases c w features fs
  have key : ∀ s ∈ saveStates c w features fs,
      s c.outputFile = fs c.outputFile ∨
        ((save c w features fs).1 = none ∧
          s = (fs.write (tempPath c) (saveText c w features)).rename (tempPath c)
            c.outputFile) := by
    intro s hs
    simp only [saveStates, List.mem_cons] at hs
    rcases hs with rfl | hs
    · exact Or.inl rfl
    cases h1 : w.statDir with
    | some e => simp [saveRun, hdir, h1] at hs
    | none =>
      cases h2 : w.writeTemp with
      | failed e left =>
        cases left with
        | none => simp [saveRun, hdir, h1, h2] at hs
        | some part =>
          simp only [saveRun, hdir, if_false, h1, h2] at hs
          exact Or.inl (mem_writeStates fs _ _ part s hdistinct hs)
      | done =>
        cases h3 : w.renameTemp with
        | some e =>
          simp only [saveRun, hdir, if_false, h1, h2, h3] at hs
          exact Or.inl (mem_writeStates fs _ _ _ s hdistinct hs)
        | none =>
          simp only [saveRun, hdir, if_false, h1, h2, h3, List.mem_append,
            List.mem_singleton] at hs
          rcases hs with hs | rfl
          · exact Or.inl (mem_writeStates fs _ _ _ s hdistinct hs)
          · exact Or.inr ⟨hE h1 h2 h3, rfl⟩
  refine ⟨tempPath_eq_outputFile_iff c, ?_, ?_, ?_⟩
  · intro s hs
    rcases key s hs with h | ⟨-, rfl⟩
    · exact Or.inl h
    · exact Or.inr (rename_write_target fs _ _ _)
  · intro s hs hchanged
    rcases key s hs with h | h
    · exact absurd h hchanged
    · exact h
  · show (saveRun c w features fs).2.1.getLast?.getD fs ∈ fs :: (saveRun c w features fs).2.1
    cases hl : (saveRun c w features fs).2.1.getLast? with
    | none => simp
    | some x =>
      exact List.mem_cons_of_mem _ (List.mem_of_getLast?_eq_some hl)

/-- C15, amended, at `worldDaemonFull` over the label file of an earlier cycle, where no
temporary file exists: a reader of the output path sees the earlier file or the complete
new one. -/
theorem save_target_changes_only_by_rename_witness :
    tempPath sampleCollector ≠ sampleCollector.outputFile ∧
      (∀ s ∈ saveStates sampleCollector worldDaemonFull fullRecord previousFiles,
        s sampleCollector.outputFile = previousFiles sampleCollector.outputFile ∨
          s sampleCollector.outputFile =
            some (saveText sampleCollector worldDaemonFull fullRecord)) ∧
      (save sampleCollector worldDaemonFull fullRecord previousFiles).2.1 ∈
        saveStates sampleCollector worldDaemonFull fullRecord previousFiles :=
  have hnode : previousFiles.node (tempPath sampleCollector) = none := by decide
  have h := save_target_changes_only_by_rename sampleCollector worldDaemonFull fullRecord
    previousFiles
    (fun hs => hs.elim (fun he => absurd he (by decide))
      (fun ⟨i, hi, _⟩ => by rw [hnode] at hi; cases hi))
  ⟨fun heq => absurd (h.1.mp heq) (by decide), h.2.1, h.2.2.2⟩

end Rbln
